import Mathlib

set_option allowUnsafeReducibility true
set_option maxRecDepth 40000

attribute [semireducible] Rat.mul Rat.add Rat.sub Rat.div Rat.neg Rat.inv

/-!
Shallow embedding of the BlazeCraft Enhanced engine
(`src/blazecraft-enhanced/engine.js`): the per-tick simulation core
(unit action state machine, production queue, fog of war, scripted
opponent, reward accumulators).

Modelling conventions:
* JS numbers that only ever hold integers (grid coordinates, gold,
  progress counters, ids) are `Int`/`Nat`; hit points and reward
  accumulators, which accumulate fractional amounts (`attack * 0.2`,
  `+= 0.1`, ...), are `ℚ` with the literals `0.2 = 1/5`, `0.1 = 1/10`,
  `0.05 = 1/20` taken exactly.
* JS unit objects are heap-allocated and aliased: the registry
  `state.units` holds references, and `processActions` keeps iterating
  the array captured at loop entry even after `state.units` is
  reassigned by a kill.  We model this with an explicit `heap` (every
  unit record ever allocated, keyed by `id`) plus `live` (the ids in
  registry order); removing a unit drops its id from `live` but keeps
  the record in `heap`, exactly like the dropped JS array still
  referencing the object.
* `Math.random()` draws are an oracle `rng : Nat → ℚ` consumed at the
  sequentially increasing index `rngIdx` carried in the state.
-/

namespace Blaze

/-- The seven entries of `CONFIG.UNIT_TYPES`. -/
inductive UType
  | resource | base | barracks | worker | light | heavy | ranged
deriving DecidableEq, Repr, BEq

/-- `CONFIG.UNIT_TYPES[t].hp`. -/
def hpOf : UType → ℚ
  | .resource => 99 | .base => 10 | .barracks => 6
  | .worker => 1 | .light => 2 | .heavy => 4 | .ranged => 1

/-- `CONFIG.UNIT_TYPES[t].attack`. -/
def attackOf : UType → ℚ
  | .resource => 0 | .base => 0 | .barracks => 0
  | .worker => 1 | .light => 2 | .heavy => 4 | .ranged => 2

/-- `CONFIG.UNIT_TYPES[t].range`. -/
def rangeOf : UType → Nat
  | .resource => 0 | .base => 0 | .barracks => 0
  | .worker => 1 | .light => 1 | .heavy => 1 | .ranged => 3

/-- `CONFIG.UNIT_TYPES[t].isBuilding`. -/
def isBuildingT : UType → Bool
  | .resource => true | .base => true | .barracks => true
  | .worker => false | .light => false | .heavy => false | .ranged => false

/-- The action strings a unit's `action` field actually takes in the engine. -/
inductive Act
  | noop | move | harvest | ret | attack
deriving DecidableEq, Repr, BEq

/-- A unit's `target` field: `null`, a `{x, y}` cell object, or a unit id. -/
inductive Tgt
  | none
  | cell (x y : Int)
  | unit (id : Nat)
deriving DecidableEq, Repr, BEq

/-- Discrete engine events (explosion/log on kill, harvest sparkle,
deposit log, production log) kept so "event fires exactly once" facts
are statable. -/
inductive Ev
  | kill (tid : Nat)
  | harvested
  | deposited
  | produced (t : UType)
deriving DecidableEq, Repr, BEq

/-- A unit object as created by `spawnUnit` (rendering-only fields
`rx ry vx vy color task` omitted). -/
structure GameUnit where
  id : Nat
  utype : UType
  owner : Nat
  gx : Int
  gy : Int
  hp : ℚ
  maxHp : ℚ
  action : Act
  target : Tgt
  progress : Nat
  carrying : Nat
deriving DecidableEq, Repr

/-- `state.rewards`: the six accumulators. -/
structure Rewards where
  winLoss : ℚ
  resources : ℚ
  workers : ℚ
  buildings : ℚ
  attack : ℚ
  combat : ℚ
deriving DecidableEq, Repr

/-- An entry of `state.prodQueue` as pushed by `produceUnit`. -/
structure Order where
  unitType : UType
  gx : Int
  gy : Int
  progress : Nat
  total : Nat
deriving DecidableEq, Repr

/-- The simulation-relevant part of the global `state` object.
`heap`/`live` encode the aliased unit objects, see the file header. -/
structure EState where
  grid : List (List Nat)
  heap : List GameUnit
  live : List Nat
  gold : Int
  rewards : Rewards
  prodQueue : List Order
  nextUnitId : Nat
  fogEnabled : Bool
  fogGrid : List (List Nat)
  cycle : Nat
  events : List Ev
  rngIdx : Nat
deriving Repr

/-- Dereference a unit id (a JS object reference). -/
def heapFind (st : EState) (i : Nat) : Option GameUnit :=
  st.heap.find? (fun u => u.id == i)

/-- Mutate the unit object with id `i` in place. -/
def updUnit (st : EState) (i : Nat) (f : GameUnit → GameUnit) : EState :=
  { st with heap := st.heap.map (fun u => if u.id == i then f u else u) }

/-- `state.units = state.units.filter(x => x.id !== i)`. -/
def removeLive (st : EState) (i : Nat) : EState :=
  { st with live := st.live.filter (fun j => j != i) }

/-- `u.action = 'noop'; u.target = null`. -/
def clearAct (st : EState) (i : Nat) : EState :=
  updUnit st i (fun u => { u with action := .noop, target := .none })

/-- `state.resources.gold += n`. -/
def addGold (st : EState) (n : Int) : EState :=
  { st with gold := st.gold + n }

/-- Overwrite `state.rewards`. -/
def setRewards (st : EState) (r : Rewards) : EState :=
  { st with rewards := r }

/-- Record a discrete engine event. -/
def addEvent (st : EState) (e : Ev) : EState :=
  { st with events := st.events ++ [e] }

/-- Advance the random-draw cursor. -/
def setRngIdx (st : EState) (n : Nat) : EState :=
  { st with rngIdx := n }

/-- Overwrite `state.fogGrid`. -/
def setFogGrid (st : EState) (g : List (List Nat)) : EState :=
  { st with fogGrid := g }

/-- Overwrite `state.prodQueue`. -/
def setQueue (st : EState) (q : List Order) : EState :=
  { st with prodQueue := q }

/-- `state.cycle++`. -/
def bumpCycle (st : EState) : EState :=
  { st with cycle := st.cycle + 1 }

/-- `u.gx = x; u.gy = y`. -/
def moveTo (st : EState) (i : Nat) (x y : Int) : EState :=
  updUnit st i (fun u => { u with gx := x, gy := y })

/-- Overwrite `state.grid` (terrain substitution, used to state that a
branch of the action resolver never reads the terrain). -/
def setGrid (st : EState) (g : List (List Nat)) : EState :=
  { st with grid := g }

/-- `state.grid[y][x]` (callers bounds-check first; out of range reads 0). -/
def cellAt (g : List (List Nat)) (x y : Int) : Nat :=
  (g.getD y.toNat []).getD x.toNat 0

/-- `state.units.some(u => u.gx === x && u.gy === y)`. -/
def occupied (st : EState) (x y : Int) : Bool :=
  st.live.any (fun j =>
    match heapFind st j with
    | some u => u.gx == x && u.gy == y
    | Option.none => false)

/-- `isWalkable` (engine.js line 783): in bounds, not a wall, unoccupied. -/
def isWalkable (st : EState) (x y : Int) : Bool :=
  !(x < 0) && x < 16 && !(y < 0) && y < 16
    && cellAt st.grid x y != 1 && !(occupied st x y)

/-- `state.units.find(t => t.id === tid)`: only live units are found. -/
def findUnit (st : EState) (tid : Nat) : Option GameUnit :=
  if st.live.contains tid then heapFind st tid else Option.none

/-- `state.units.find(b => b.type === 'base' && b.owner === own)`. -/
def findBase (st : EState) (own : Nat) : Option GameUnit :=
  (st.live.filterMap (heapFind st)).find?
    (fun b => b.utype == UType.base && b.owner == own)

/-- `spawnUnit(type, gx, gy, owner)`: fresh id, full hp, pushed onto the
registry. -/
def spawnUnit (st : EState) (t : UType) (x y : Int) (own : Nat) : EState :=
  let u : GameUnit :=
    { id := st.nextUnitId, utype := t, owner := own, gx := x, gy := y,
      hp := hpOf t, maxHp := hpOf t, action := .noop, target := .none,
      progress := 0, carrying := 0 }
  { st with heap := st.heap ++ [u], live := st.live ++ [u.id],
            nextUnitId := st.nextUnitId + 1 }

/-- Manhattan distance as computed by the engine's `Math.abs` sums. -/
def distM (ax ay bx by' : Int) : Nat :=
  (bx - ax).natAbs + (by' - ay).natAbs

/-- The body of the `processActions` loop for one visited unit object.
The visited object is dereferenced from the heap (it may have been
removed from the registry earlier in the pass and still acts, exactly
as in the JS iteration over the captured array). -/
def stepUnit (st : EState) (uid : Nat) : EState :=
  match heapFind st uid with
  | Option.none => st
  | some u =>
    match u.action, u.target with
    | .move, .cell tx ty =>
        let dx := tx - u.gx
        let dy := ty - u.gy
        if dx = 0 ∧ dy = 0 then clearAct st uid
        else
          let nx := u.gx + (if dy.natAbs < dx.natAbs then dx.sign else 0)
          let ny := u.gy + (if dx.natAbs ≤ dy.natAbs then dy.sign else 0)
          let moved := isWalkable st nx ny
          let st1 := if moved then moveTo st uid nx ny else st
          let px := if moved then nx else u.gx
          let py := if moved then ny else u.gy
          if px = tx ∧ py = ty then clearAct st1 uid else st1
    | .harvest, _ =>
        let p := u.progress + 1
        if 10 ≤ p then
          let c := min (u.carrying + 1) 4
          let st1 := updUnit st uid (fun v => { v with progress := 0, carrying := c })
          let st1 := addEvent st1 Ev.harvested
          if 2 ≤ c then
            let st2 := updUnit st1 uid (fun v => { v with action := .ret })
            match findBase st2 u.owner with
            | some b => updUnit st2 uid (fun v => { v with target := .cell b.gx b.gy })
            | Option.none => st2
          else st1
        else updUnit st uid (fun v => { v with progress := p })
    | .ret, .cell tx ty =>
        let dx := tx - u.gx
        let dy := ty - u.gy
        if dx.natAbs + dy.natAbs ≤ 1 then
          let st1 := addGold st ((u.carrying : Int) * 25)
          let st2 := setRewards st1 { st1.rewards with
            resources := st1.rewards.resources + (u.carrying : ℚ) * (1/10) }
          let st3 := addEvent st2 Ev.deposited
          updUnit st3 uid (fun v => { v with carrying := 0, action := .noop, target := .none })
        else
          let nx := u.gx + (if dy.natAbs < dx.natAbs then dx.sign else 0)
          let ny := u.gy + (if dx.natAbs ≤ dy.natAbs then dy.sign else 0)
          if isWalkable st nx ny then moveTo st uid nx ny else st
    | .attack, .unit tid =>
        match findUnit st tid with
        | Option.none => clearAct st uid
        | some t =>
          if t.hp ≤ 0 then clearAct st uid
          else
            let dist := distM u.gx u.gy t.gx t.gy
            if dist ≤ rangeOf u.utype then
              let hp2 := t.hp - attackOf u.utype * (1/5)
              let st1 := updUnit st tid (fun v => { v with hp := hp2 })
              let st2 := setRewards st1
                { st1.rewards with attack := st1.rewards.attack + 1/20 }
              if hp2 ≤ 0 then
                let st3 := addEvent st2 (Ev.kill tid)
                let st4 := setRewards st3
                  { st3.rewards with combat := st3.rewards.combat + 1/5 }
                clearAct (removeLive st4 tid) uid
              else st2
            else
              let nx := u.gx + (t.gx - u.gx).sign
              let ny := u.gy + (t.gy - u.gy).sign
              if isWalkable st nx ny then moveTo st uid nx ny else st
    | .attack, .cell _ _ =>
        -- `state.units.find(t => t.id === {x,y})` matches nothing, so the
        -- attacker is cleared to idle.
        clearAct st uid
    | _, _ => st

/-- `processActions`: iterate the registry array captured at loop entry;
mid-pass removals do not shorten the iteration. -/
def processActions (st : EState) : EState :=
  st.live.foldl stepUnit st

/-- Nearest player-1 unit by Manhattan distance (first strict minimum in
registry order), as the `processAI` scan computes it. -/
def nearestP1 (st : EState) (u : GameUnit) : Option (Nat × Nat) :=
  (st.live.filterMap (heapFind st)).foldl
    (fun acc t =>
      if t.owner == 1 then
        let d := distM u.gx u.gy t.gx t.gy
        match acc with
        | some (_, md) => if d < md then some (t.id, d) else acc
        | Option.none => some (t.id, d)
      else acc)
    Option.none

/-- `Math.max(0, Math.min(15, v))`. -/
def clamp15 (v : Int) : Int := max 0 (min 15 v)

/-- One enemy unit's decision in `processAI`. -/
def aiStep (rng : Nat → ℚ) (st : EState) (uid : Nat) : EState :=
  match heapFind st uid with
  | Option.none => st
  | some u =>
    if u.owner == 2 && u.action == Act.noop && !(isBuildingT u.utype) then
      match nearestP1 st u with
      | some (tid, d) =>
          if d ≤ 8 then
            updUnit st uid (fun v => { v with action := .attack, target := .unit tid })
          else
            let r1 := rng st.rngIdx
            if r1 < 1/10 then
              let r2 := rng (st.rngIdx + 1)
              let r3 := rng (st.rngIdx + 2)
              let tx := clamp15 (u.gx + ⌊r2 * 5⌋ - 2)
              let ty := clamp15 (u.gy + ⌊r3 * 5⌋ - 2)
              setRngIdx
                (updUnit st uid (fun v => { v with action := .move, target := .cell tx ty }))
                (st.rngIdx + 3)
            else setRngIdx st (st.rngIdx + 1)
      | Option.none =>
          let r1 := rng st.rngIdx
          if r1 < 1/10 then
            let r2 := rng (st.rngIdx + 1)
            let r3 := rng (st.rngIdx + 2)
            let tx := clamp15 (u.gx + ⌊r2 * 5⌋ - 2)
            let ty := clamp15 (u.gy + ⌊r3 * 5⌋ - 2)
            setRngIdx
              (updUnit st uid (fun v => { v with action := .move, target := .cell tx ty }))
              (st.rngIdx + 3)
          else setRngIdx st (st.rngIdx + 1)
    else st

/-- `processAI`: every 5th cycle, let each idle mobile enemy unit decide. -/
def processAI (rng : Nat → ℚ) (st : EState) : EState :=
  if st.cycle % 5 ≠ 0 then st
  else st.live.foldl (aiStep rng) st

/-- The fixed list of 6 spawn offsets around a producer (note: the two
diagonals `(+1,-1)` and `(-1,+1)` are absent in the source). -/
def spotsOf (x y : Int) : List (Int × Int) :=
  [(x+1, y), (x-1, y), (x, y+1), (x, y-1), (x+1, y+1), (x-1, y-1)]

/-- Completion of one order: spawn at the first walkable spot if any
(owner is hard-coded to 1 in the source), bump the matching reward. -/
def finishOrder (st : EState) (o : Order) : EState :=
  match (spotsOf o.gx o.gy).find? (fun p => isWalkable st p.1 p.2) with
  | some p =>
      let st1 := spawnUnit st o.unitType p.1 p.2 1
      let st2 := addEvent st1 (Ev.produced o.unitType)
      if o.unitType == UType.worker then
        setRewards st2 { st2.rewards with workers := st2.rewards.workers + 1/10 }
      else
        setRewards st2 { st2.rewards with combat := st2.rewards.combat + 1/10 }
  | Option.none => st

/-- The backward `for (let i = len-1; i >= 0; i--)` walk of the
production queue: later indices are processed first, completed orders
are spliced out unconditionally (whether or not a spot was found). -/
def prodGo : List Order → EState → List Order × EState
  | [], st => ([], st)
  | o :: rest, st =>
      let pr := prodGo rest st
      let o' : Order := { o with progress := o.progress + 1 }
      if o.total ≤ o'.progress then (pr.1, finishOrder pr.2 o')
      else (o' :: pr.1, pr.2)

/-- `processProduction`. -/
def processProduction (st : EState) : EState :=
  let pr := prodGo st.prodQueue st
  setQueue pr.2 pr.1

/-- Cell `(x,y)` is revealed this recompute: some live player-1 unit has
squared Euclidean distance ≤ `VISION_RANGE² = 16` (per-cell form of the
source's `for dy, dx in [-4,4], dx*dx+dy*dy <= 16` marking loop). -/
def seenByP1 (st : EState) (x y : Int) : Bool :=
  st.live.any (fun i =>
    match heapFind st i with
    | some u => u.owner == 1
        && (x - u.gx) * (x - u.gx) + (y - u.gy) * (y - u.gy) ≤ 16
    | Option.none => false)

/-- `updateFog`: fog disabled forces everything Visible (2); enabled
downgrades Visible to Explored (1) and re-reveals around player-1 units. -/
def updateFog (st : EState) : EState :=
  if st.fogEnabled = false then
    setFogGrid st (List.replicate 16 (List.replicate 16 2))
  else
    setFogGrid st
      ((List.range 16).map (fun (y : Nat) => (List.range 16).map (fun (x : Nat) =>
        if seenByP1 st (x : Int) (y : Int) then 2
        else if cellAt st.fogGrid (x : Int) (y : Int) = 2 then 1
        else cellAt st.fogGrid (x : Int) (y : Int))))

/-- `gameTick` (UI-only calls `updateGameTime`, `updateUI`,
`updateRewards` omitted — they read but never write simulation state). -/
def gameTick (rng : Nat → ℚ) (st : EState) : EState :=
  updateFog (processProduction (processAI rng (processActions (bumpCycle st))))

/-- `toggleFog`. -/
def toggleFog (st : EState) : EState :=
  updateFog { st with fogEnabled := !st.fogEnabled }

/-- Run `n` simulation ticks. -/
def runTicks (rng : Nat → ℚ) : Nat → EState → EState
  | 0, st => st
  | n + 1, st => runTicks rng n (gameTick rng st)

/-! ### Concrete states used by the closed runs and witnesses -/

/-- All-free 16×16 terrain. -/
def grid0 : List (List Nat) := List.replicate 16 (List.replicate 16 0)

/-- All-hidden initial fog, as built by `initFog`. -/
def fog0 : List (List Nat) := List.replicate 16 (List.replicate 16 0)

/-- A deterministic random oracle (always above the 10% patrol threshold). -/
def rng1 : Nat → ℚ := fun _ => 1

/-- Empty-world base state shared by the concrete runs. -/
def baseSt : EState :=
  { grid := grid0, heap := [], live := [], gold := 200,
    rewards := { winLoss := 0, resources := 0, workers := 0,
                 buildings := 0, attack := 0, combat := 0 },
    prodQueue := [], nextUnitId := 1, fogEnabled := true, fogGrid := fog0,
    cycle := 0, events := [], rngIdx := 0 }

/-- Terrain with a single Resource cell at (2,6). -/
def gridRes : List (List Nat) :=
  (List.range 16).map (fun y => (List.range 16).map (fun x =>
    if y = 6 ∧ x = 2 then 2 else 0))

/-- A player-1 base at (1,1). -/
def baseU : GameUnit :=
  { id := 1, utype := .base, owner := 1, gx := 1, gy := 1, hp := 10, maxHp := 10,
    action := .noop, target := .none, progress := 0, carrying := 0 }

/-- A player-1 worker standing on the Resource cell (2,6), harvesting. -/
def workerU : GameUnit :=
  { id := 2, utype := .worker, owner := 1, gx := 2, gy := 6, hp := 1, maxHp := 1,
    action := .harvest, target := .cell 2 6, progress := 0, carrying := 0 }

/-- Worker on resource with its base present: the spec's harvest run. -/
def harvestSt : EState :=
  { baseSt with grid := gridRes, heap := [baseU, workerU], live := [1, 2],
                nextUnitId := 3 }

/-- A worker at the plain free cell (5,5), with action `harvest`. -/
def roverU : GameUnit := { workerU with gx := 5, gy := 5, target := .none }

/-- Harvesting away from any Resource cell (terrain is all Free). -/
def offResSt : EState :=
  { baseSt with heap := [baseU, roverU], live := [1, 2], nextUnitId := 3 }

/-- A heavy (attack 4, range 1) at (0,0) attacking unit 2. -/
def heavyU : GameUnit :=
  { id := 1, utype := .heavy, owner := 1, gx := 0, gy := 0, hp := 4, maxHp := 4,
    action := .attack, target := .unit 2, progress := 0, carrying := 0 }

/-- A light (hp 2) enemy at (0,1), adjacent to the heavy. -/
def lightU : GameUnit :=
  { id := 2, utype := .light, owner := 2, gx := 0, gy := 1, hp := 2, maxHp := 2,
    action := .noop, target := .none, progress := 0, carrying := 0 }

/-- The spec's combat run: range-1 attacker with attack 4 vs hp-2 target. -/
def combatSt : EState :=
  { baseSt with heap := [heavyU, lightU], live := [1, 2], nextUnitId := 3 }

/-- Walls on all three in-bounds spawn offsets of origin (0,0):
(1,0), (0,1) and (1,1); the other three offsets are out of bounds. -/
def gridBlocked3 : List (List Nat) :=
  (List.range 16).map (fun y => (List.range 16).map (fun x =>
    if (y = 0 ∧ x = 1) ∨ (y = 1 ∧ x = 0) ∨ (y = 1 ∧ x = 1) then 1 else 0))

/-- Walls on (0,1) and (1,1) only: exactly one free spot (1,0) remains. -/
def gridBlocked2 : List (List Nat) :=
  (List.range 16).map (fun y => (List.range 16).map (fun x =>
    if (y = 1 ∧ x = 0) ∨ (y = 1 ∧ x = 1) then 1 else 0))

/-- A worker order at origin (0,0) one tick away from completion. -/
def stuckOrder : Order :=
  { unitType := .worker, gx := 0, gy := 0, progress := 49, total := 50 }

/-- A completing order whose origin has no free spawn spot. -/
def prodCexSt : EState :=
  { baseSt with grid := gridBlocked3, prodQueue := [stuckOrder] }

/-- Two orders completing on the same tick with a single free spot. -/
def prodTwoSt : EState :=
  { baseSt with grid := gridBlocked2,
                prodQueue := [stuckOrder, { stuckOrder with unitType := .light }] }

/-- A worker one step from its base, returning with 2 carried resources. -/
def retU : GameUnit :=
  { id := 1, utype := .worker, owner := 1, gx := 1, gy := 2, hp := 1, maxHp := 1,
    action := .ret, target := .cell 1 1, progress := 0, carrying := 2 }

/-- Deposit state for the return-branch witness. -/
def retSt : EState :=
  { baseSt with heap := [retU], live := [1], nextUnitId := 2 }

/-- A worker mid-cycle with a full load (carried 4, progress 9), still in
the harvest action and with no base anywhere. -/
def capU : GameUnit :=
  { id := 1, utype := .worker, owner := 1, gx := 5, gy := 5, hp := 1, maxHp := 1,
    action := .harvest, target := .none, progress := 9, carrying := 4 }

/-- State exercising the carried-resource cap. -/
def capSt : EState :=
  { baseSt with heap := [capU], live := [1], nextUnitId := 2 }

/-- A worker at (3,3) moving to (3,5). -/
def moveU : GameUnit :=
  { id := 1, utype := .worker, owner := 1, gx := 3, gy := 3, hp := 1, maxHp := 1,
    action := .move, target := .cell 3 5, progress := 0, carrying := 0 }

/-- Movement state for the move-branch witness. -/
def moveSt : EState :=
  { baseSt with heap := [moveU], live := [1], nextUnitId := 2 }

/-- One player-1 unit on an all-hidden fog grid. -/
def fogSt : EState :=
  { baseSt with heap := [baseU], live := [1] }

/-- Attacker that dies this pass: a heavy at (0,0) attacking unit 2. -/
def aU : GameUnit :=
  { id := 1, utype := .heavy, owner := 1, gx := 0, gy := 0, hp := 4, maxHp := 4,
    action := .attack, target := .unit 2, progress := 0, carrying := 0 }

/-- A wounded light at (0,1): killed by `aU`, itself attacking unit 3. -/
def bU : GameUnit :=
  { id := 2, utype := .light, owner := 2, gx := 0, gy := 1, hp := 1/2, maxHp := 2,
    action := .attack, target := .unit 3, progress := 0, carrying := 0 }

/-- A heavy at (1,1), target of the doomed `bU`. -/
def cU : GameUnit :=
  { id := 3, utype := .heavy, owner := 1, gx := 1, gy := 1, hp := 4, maxHp := 4,
    action := .noop, target := .none, progress := 0, carrying := 0 }

/-- Pass in which `bU` dies to `aU` before its own turn, yet still
strikes `cU`. -/
def deadSt : EState :=
  { baseSt with heap := [aU, bU, cU], live := [1, 2, 3], nextUnitId := 4 }

/-! ### Observations and invariants used by the theorems -/

/-- The grid position a unit id currently denotes, if allocated. -/
def posOf (st : EState) (i : Nat) : Option (Int × Int) :=
  (heapFind st i).map (fun u => (u.gx, u.gy))

/-- The action a unit id currently denotes, if allocated. -/
def actOf (st : EState) (i : Nat) : Option Act :=
  (heapFind st i).map (fun u => u.action)

/-- Occupancy invariant: two distinct registry ids never denote the same
grid cell. -/
def distinctPos (st : EState) : Prop :=
  ∀ i ∈ st.live, ∀ j ∈ st.live, i ≠ j →
    posOf st i = Option.none ∨ posOf st i ≠ posOf st j

/-- Allocation discipline maintained by `spawnUnit`: every allocated id
lies below the id counter (so a fresh id never collides). -/
def WF (st : EState) : Prop := ∀ u ∈ st.heap, u.id < st.nextUnitId

/-- `0 < hp ∧ hp ≤ maxHp` for an optional unit record. -/
def hpOkB : Option GameUnit → Bool
  | some u => decide (0 < u.hp) && decide (u.hp ≤ u.maxHp)
  | Option.none => true

/-- Health invariant over the registry. -/
def hpInv (st : EState) : Prop := ∀ i ∈ st.live, hpOkB (heapFind st i) = true

/-- The single-axis-dominant destination, written the way the spec
describes it: the axis with the strictly larger absolute delta moves,
ties move vertically. -/
def domStep (gx gy tx ty : Int) : Int × Int :=
  if (ty - gy).natAbs < (tx - gx).natAbs
  then (gx + (tx - gx).sign, gy)
  else (gx, gy + (ty - gy).sign)

/-- Pointwise order on the six reward accumulators. -/
def rewardsLE (r r' : Rewards) : Prop :=
  r.winLoss ≤ r'.winLoss ∧ r.resources ≤ r'.resources ∧
  r.workers ≤ r'.workers ∧ r.buildings ≤ r'.buildings ∧
  r.attack ≤ r'.attack ∧ r.combat ≤ r'.combat

/-! ### Heap dereference lemmas -/

theorem heapFind_id {st : EState} {i : Nat} {u : GameUnit}
    (h : heapFind st i = some u) : u.id = i := by
  have h2 := List.find?_some h
  simpa using h2

theorem find?_map_id {g : GameUnit → GameUnit}
    (hg : ∀ v, (g v).id = v.id) (j : Nat) (l : List GameUnit) :
    (l.map g).find? (fun u => u.id == j) =
      ((l.find? (fun u => u.id == j)).map g) := by
  induction l with
  | nil => rfl
  | cons a l ih =>
    simp only [List.map_cons, List.find?, hg]
    cases h : (a.id == j) with
    | true => simp [h]
    | false => simp [h, ih]

theorem heapFind_updUnit {st : EState} {i : Nat} (f : GameUnit → GameUnit)
    (hf : ∀ v, (f v).id = v.id) (j : Nat) :
    heapFind (updUnit st i f) j
      = (heapFind st j).map (fun v => if v.id == i then f v else v) := by
  unfold heapFind updUnit
  exact find?_map_id (fun v => by by_cases h : v.id == i <;> simp [h, hf]) j _

theorem heapFind_updUnit_self {st : EState} {i : Nat} (f : GameUnit → GameUnit)
    (hf : ∀ v, (f v).id = v.id) :
    heapFind (updUnit st i f) i = (heapFind st i).map f := by
  rw [heapFind_updUnit f hf]
  cases h : heapFind st i with
  | none => rfl
  | some v => simp [heapFind_id h]

theorem heapFind_updUnit_other {st : EState} {i : Nat} (f : GameUnit → GameUnit)
    (hf : ∀ v, (f v).id = v.id) {j : Nat} (hj : j ≠ i) :
    heapFind (updUnit st i f) j = heapFind st j := by
  rw [heapFind_updUnit f hf]
  cases h : heapFind st j with
  | none => rfl
  | some v => simp [heapFind_id h, hj]

theorem find?_map_keep (g : GameUnit → GameUnit) (p : GameUnit → Bool)
    (hp : ∀ v, p (g v) = p v) (l : List GameUnit) :
    (l.map g).find? p = (l.find? p).map g := by
  induction l with
  | nil => rfl
  | cons a l ih =>
    simp only [List.map_cons, List.find?, hp]
    cases h : p a with
    | true => simp [h]
    | false => simp [h, ih]

/-- Mutating one unit object in place while preserving ids, types and
owners commutes with the base lookup (the found base merely picks up
the field update when it is the mutated unit itself). -/
theorem findBase_updUnit {st : EState} {i : Nat} (f : GameUnit → GameUnit)
    (hf : ∀ v, (f v).id = v.id) (hty : ∀ v, (f v).utype = v.utype)
    (how : ∀ v, (f v).owner = v.owner) (own : Nat) :
    findBase (updUnit st i f) own
      = (findBase st own).map (fun v => if v.id == i then f v else v) := by
  unfold findBase
  have h1 : (updUnit st i f).live.filterMap (heapFind (updUnit st i f))
      = (st.live.filterMap (heapFind st)).map
          (fun v => if v.id == i then f v else v) := by
    rw [List.map_filterMap]
    congr 1
    funext j
    exact heapFind_updUnit f hf j
  rw [h1, find?_map_keep (fun v => if v.id == i then f v else v)
        (fun b => b.utype == UType.base && b.owner == own)
        (fun v => by by_cases hv : (v.id == i) = true <;> simp [hv, hty, how])]

/-! ### Frame lemmas: the record-update combinators leave everything
else untouched (all proofs are definitional) -/
@[simp] theorem addGold_grid (st : EState) (n : Int) : (addGold st n).grid = st.grid := rfl
@[simp] theorem addGold_heap (st : EState) (n : Int) : (addGold st n).heap = st.heap := rfl
@[simp] theorem addGold_live (st : EState) (n : Int) : (addGold st n).live = st.live := rfl
@[simp] theorem addGold_gold (st : EState) (n : Int) : (addGold st n).gold = st.gold + n := rfl
@[simp] theorem addGold_rewards (st : EState) (n : Int) : (addGold st n).rewards = st.rewards := rfl
@[simp] theorem addGold_prodQueue (st : EState) (n : Int) : (addGold st n).prodQueue = st.prodQueue := rfl
@[simp] theorem addGold_nextUnitId (st : EState) (n : Int) : (addGold st n).nextUnitId = st.nextUnitId := rfl
@[simp] theorem addGold_fogEnabled (st : EState) (n : Int) : (addGold st n).fogEnabled = st.fogEnabled := rfl
@[simp] theorem addGold_fogGrid (st : EState) (n : Int) : (addGold st n).fogGrid = st.fogGrid := rfl
@[simp] theorem addGold_cycle (st : EState) (n : Int) : (addGold st n).cycle = st.cycle := rfl
@[simp] theorem addGold_events (st : EState) (n : Int) : (addGold st n).events = st.events := rfl
@[simp] theorem addGold_rngIdx (st : EState) (n : Int) : (addGold st n).rngIdx = st.rngIdx := rfl
@[simp] theorem addGold_heapFind (st : EState) (n : Int) (j : Nat) : heapFind (addGold st n) j = heapFind st j := rfl
@[simp] theorem addGold_occupied (st : EState) (n : Int) (x y : Int) : occupied (addGold st n) x y = occupied st x y := rfl
@[simp] theorem addGold_isWalkable (st : EState) (n : Int) (x y : Int) : isWalkable (addGold st n) x y = isWalkable st x y := rfl
@[simp] theorem addGold_findUnit (st : EState) (n : Int) (tid : Nat) : findUnit (addGold st n) tid = findUnit st tid := rfl
@[simp] theorem addGold_findBase (st : EState) (n : Int) (own2 : Nat) : findBase (addGold st n) own2 = findBase st own2 := rfl
@[simp] theorem addGold_posOf (st : EState) (n : Int) (j : Nat) : posOf (addGold st n) j = posOf st j := rfl
@[simp] theorem addGold_actOf (st : EState) (n : Int) (j : Nat) : actOf (addGold st n) j = actOf st j := rfl
@[simp] theorem setRewards_grid (st : EState) (r : Rewards) : (setRewards st r).grid = st.grid := rfl
@[simp] theorem setRewards_heap (st : EState) (r : Rewards) : (setRewards st r).heap = st.heap := rfl
@[simp] theorem setRewards_live (st : EState) (r : Rewards) : (setRewards st r).live = st.live := rfl
@[simp] theorem setRewards_gold (st : EState) (r : Rewards) : (setRewards st r).gold = st.gold := rfl
@[simp] theorem setRewards_rewards (st : EState) (r : Rewards) : (setRewards st r).rewards = r := rfl
@[simp] theorem setRewards_prodQueue (st : EState) (r : Rewards) : (setRewards st r).prodQueue = st.prodQueue := rfl
@[simp] theorem setRewards_nextUnitId (st : EState) (r : Rewards) : (setRewards st r).nextUnitId = st.nextUnitId := rfl
@[simp] theorem setRewards_fogEnabled (st : EState) (r : Rewards) : (setRewards st r).fogEnabled = st.fogEnabled := rfl
@[simp] theorem setRewards_fogGrid (st : EState) (r : Rewards) : (setRewards st r).fogGrid = st.fogGrid := rfl
@[simp] theorem setRewards_cycle (st : EState) (r : Rewards) : (setRewards st r).cycle = st.cycle := rfl
@[simp] theorem setRewards_events (st : EState) (r : Rewards) : (setRewards st r).events = st.events := rfl
@[simp] theorem setRewards_rngIdx (st : EState) (r : Rewards) : (setRewards st r).rngIdx = st.rngIdx := rfl
@[simp] theorem setRewards_heapFind (st : EState) (r : Rewards) (j : Nat) : heapFind (setRewards st r) j = heapFind st j := rfl
@[simp] theorem setRewards_occupied (st : EState) (r : Rewards) (x y : Int) : occupied (setRewards st r) x y = occupied st x y := rfl
@[simp] theorem setRewards_isWalkable (st : EState) (r : Rewards) (x y : Int) : isWalkable (setRewards st r) x y = isWalkable st x y := rfl
@[simp] theorem setRewards_findUnit (st : EState) (r : Rewards) (tid : Nat) : findUnit (setRewards st r) tid = findUnit st tid := rfl
@[simp] theorem setRewards_findBase (st : EState) (r : Rewards) (own2 : Nat) : findBase (setRewards st r) own2 = findBase st own2 := rfl
@[simp] theorem setRewards_posOf (st : EState) (r : Rewards) (j : Nat) : posOf (setRewards st r) j = posOf st j := rfl
@[simp] theorem setRewards_actOf (st : EState) (r : Rewards) (j : Nat) : actOf (setRewards st r) j = actOf st j := rfl
@[simp] theorem addEvent_grid (st : EState) (e : Ev) : (addEvent st e).grid = st.grid := rfl
@[simp] theorem addEvent_heap (st : EState) (e : Ev) : (addEvent st e).heap = st.heap := rfl
@[simp] theorem addEvent_live (st : EState) (e : Ev) : (addEvent st e).live = st.live := rfl
@[simp] theorem addEvent_gold (st : EState) (e : Ev) : (addEvent st e).gold = st.gold := rfl
@[simp] theorem addEvent_rewards (st : EState) (e : Ev) : (addEvent st e).rewards = st.rewards := rfl
@[simp] theorem addEvent_prodQueue (st : EState) (e : Ev) : (addEvent st e).prodQueue = st.prodQueue := rfl
@[simp] theorem addEvent_nextUnitId (st : EState) (e : Ev) : (addEvent st e).nextUnitId = st.nextUnitId := rfl
@[simp] theorem addEvent_fogEnabled (st : EState) (e : Ev) : (addEvent st e).fogEnabled = st.fogEnabled := rfl
@[simp] theorem addEvent_fogGrid (st : EState) (e : Ev) : (addEvent st e).fogGrid = st.fogGrid := rfl
@[simp] theorem addEvent_cycle (st : EState) (e : Ev) : (addEvent st e).cycle = st.cycle := rfl
@[simp] theorem addEvent_events (st : EState) (e : Ev) : (addEvent st e).events = st.events ++ [e] := rfl
@[simp] theorem addEvent_rngIdx (st : EState) (e : Ev) : (addEvent st e).rngIdx = st.rngIdx := rfl
@[simp] theorem addEvent_heapFind (st : EState) (e : Ev) (j : Nat) : heapFind (addEvent st e) j = heapFind st j := rfl
@[simp] theorem addEvent_occupied (st : EState) (e : Ev) (x y : Int) : occupied (addEvent st e) x y = occupied st x y := rfl
@[simp] theorem addEvent_isWalkable (st : EState) (e : Ev) (x y : Int) : isWalkable (addEvent st e) x y = isWalkable st x y := rfl
@[simp] theorem addEvent_findUnit (st : EState) (e : Ev) (tid : Nat) : findUnit (addEvent st e) tid = findUnit st tid := rfl
@[simp] theorem addEvent_findBase (st : EState) (e : Ev) (own2 : Nat) : findBase (addEvent st e) own2 = findBase st own2 := rfl
@[simp] theorem addEvent_posOf (st : EState) (e : Ev) (j : Nat) : posOf (addEvent st e) j = posOf st j := rfl
@[simp] theorem addEvent_actOf (st : EState) (e : Ev) (j : Nat) : actOf (addEvent st e) j = actOf st j := rfl
@[simp] theorem setRngIdx_grid (st : EState) (n : Nat) : (setRngIdx st n).grid = st.grid := rfl
@[simp] theorem setRngIdx_heap (st : EState) (n : Nat) : (setRngIdx st n).heap = st.heap := rfl
@[simp] theorem setRngIdx_live (st : EState) (n : Nat) : (setRngIdx st n).live = st.live := rfl
@[simp] theorem setRngIdx_gold (st : EState) (n : Nat) : (setRngIdx st n).gold = st.gold := rfl
@[simp] theorem setRngIdx_rewards (st : EState) (n : Nat) : (setRngIdx st n).rewards = st.rewards := rfl
@[simp] theorem setRngIdx_prodQueue (st : EState) (n : Nat) : (setRngIdx st n).prodQueue = st.prodQueue := rfl
@[simp] theorem setRngIdx_nextUnitId (st : EState) (n : Nat) : (setRngIdx st n).nextUnitId = st.nextUnitId := rfl
@[simp] theorem setRngIdx_fogEnabled (st : EState) (n : Nat) : (setRngIdx st n).fogEnabled = st.fogEnabled := rfl
@[simp] theorem setRngIdx_fogGrid (st : EState) (n : Nat) : (setRngIdx st n).fogGrid = st.fogGrid := rfl
@[simp] theorem setRngIdx_cycle (st : EState) (n : Nat) : (setRngIdx st n).cycle = st.cycle := rfl
@[simp] theorem setRngIdx_events (st : EState) (n : Nat) : (setRngIdx st n).events = st.events := rfl
@[simp] theorem setRngIdx_rngIdx (st : EState) (n : Nat) : (setRngIdx st n).rngIdx = n := rfl
@[simp] theorem setRngIdx_heapFind (st : EState) (n : Nat) (j : Nat) : heapFind (setRngIdx st n) j = heapFind st j := rfl
@[simp] theorem setRngIdx_occupied (st : EState) (n : Nat) (x y : Int) : occupied (setRngIdx st n) x y = occupied st x y := rfl
@[simp] theorem setRngIdx_isWalkable (st : EState) (n : Nat) (x y : Int) : isWalkable (setRngIdx st n) x y = isWalkable st x y := rfl
@[simp] theorem setRngIdx_findUnit (st : EState) (n : Nat) (tid : Nat) : findUnit (setRngIdx st n) tid = findUnit st tid := rfl
@[simp] theorem setRngIdx_findBase (st : EState) (n : Nat) (own2 : Nat) : findBase (setRngIdx st n) own2 = findBase st own2 := rfl
@[simp] theorem setRngIdx_posOf (st : EState) (n : Nat) (j : Nat) : posOf (setRngIdx st n) j = posOf st j := rfl
@[simp] theorem setRngIdx_actOf (st : EState) (n : Nat) (j : Nat) : actOf (setRngIdx st n) j = actOf st j := rfl
@[simp] theorem setFogGrid_grid (st : EState) (g2 : List (List Nat)) : (setFogGrid st g2).grid = st.grid := rfl
@[simp] theorem setFogGrid_heap (st : EState) (g2 : List (List Nat)) : (setFogGrid st g2).heap = st.heap := rfl
@[simp] theorem setFogGrid_live (st : EState) (g2 : List (List Nat)) : (setFogGrid st g2).live = st.live := rfl
@[simp] theorem setFogGrid_gold (st : EState) (g2 : List (List Nat)) : (setFogGrid st g2).gold = st.gold := rfl
@[simp] theorem setFogGrid_rewards (st : EState) (g2 : List (List Nat)) : (setFogGrid st g2).rewards = st.rewards := rfl
@[simp] theorem setFogGrid_prodQueue (st : EState) (g2 : List (List Nat)) : (setFogGrid st g2).prodQueue = st.prodQueue := rfl
@[simp] theorem setFogGrid_nextUnitId (st : EState) (g2 : List (List Nat)) : (setFogGrid st g2).nextUnitId = st.nextUnitId := rfl
@[simp] theorem setFogGrid_fogEnabled (st : EState) (g2 : List (List Nat)) : (setFogGrid st g2).fogEnabled = st.fogEnabled := rfl
@[simp] theorem setFogGrid_fogGrid (st : EState) (g2 : List (List Nat)) : (setFogGrid st g2).fogGrid = g2 := rfl
@[simp] theorem setFogGrid_cycle (st : EState) (g2 : List (List Nat)) : (setFogGrid st g2).cycle = st.cycle := rfl
@[simp] theorem setFogGrid_events (st : EState) (g2 : List (List Nat)) : (setFogGrid st g2).events = st.events := rfl
@[simp] theorem setFogGrid_rngIdx (st : EState) (g2 : List (List Nat)) : (setFogGrid st g2).rngIdx = st.rngIdx := rfl
@[simp] theorem setFogGrid_heapFind (st : EState) (g2 : List (List Nat)) (j : Nat) : heapFind (setFogGrid st g2) j = heapFind st j := rfl
@[simp] theorem setFogGrid_occupied (st : EState) (g2 : List (List Nat)) (x y : Int) : occupied (setFogGrid st g2) x y = occupied st x y := rfl
@[simp] theorem setFogGrid_isWalkable (st : EState) (g2 : List (List Nat)) (x y : Int) : isWalkable (setFogGrid st g2) x y = isWalkable st x y := rfl
@[simp] theorem setFogGrid_findUnit (st : EState) (g2 : List (List Nat)) (tid : Nat) : findUnit (setFogGrid st g2) tid = findUnit st tid := rfl
@[simp] theorem setFogGrid_findBase (st : EState) (g2 : List (List Nat)) (own2 : Nat) : findBase (setFogGrid st g2) own2 = findBase st own2 := rfl
@[simp] theorem setFogGrid_posOf (st : EState) (g2 : List (List Nat)) (j : Nat) : posOf (setFogGrid st g2) j = posOf st j := rfl
@[simp] theorem setFogGrid_actOf (st : EState) (g2 : List (List Nat)) (j : Nat) : actOf (setFogGrid st g2) j = actOf st j := rfl
@[simp] theorem setQueue_grid (st : EState) (q : List Order) : (setQueue st q).grid = st.grid := rfl
@[simp] theorem setQueue_heap (st : EState) (q : List Order) : (setQueue st q).heap = st.heap := rfl
@[simp] theorem setQueue_live (st : EState) (q : List Order) : (setQueue st q).live = st.live := rfl
@[simp] theorem setQueue_gold (st : EState) (q : List Order) : (setQueue st q).gold = st.gold := rfl
@[simp] theorem setQueue_rewards (st : EState) (q : List Order) : (setQueue st q).rewards = st.rewards := rfl
@[simp] theorem setQueue_prodQueue (st : EState) (q : List Order) : (setQueue st q).prodQueue = q := rfl
@[simp] theorem setQueue_nextUnitId (st : EState) (q : List Order) : (setQueue st q).nextUnitId = st.nextUnitId := rfl
@[simp] theorem setQueue_fogEnabled (st : EState) (q : List Order) : (setQueue st q).fogEnabled = st.fogEnabled := rfl
@[simp] theorem setQueue_fogGrid (st : EState) (q : List Order) : (setQueue st q).fogGrid = st.fogGrid := rfl
@[simp] theorem setQueue_cycle (st : EState) (q : List Order) : (setQueue st q).cycle = st.cycle := rfl
@[simp] theorem setQueue_events (st : EState) (q : List Order) : (setQueue st q).events = st.events := rfl
@[simp] theorem setQueue_rngIdx (st : EState) (q : List Order) : (setQueue st q).rngIdx = st.rngIdx := rfl
@[simp] theorem setQueue_heapFind (st : EState) (q : List Order) (j : Nat) : heapFind (setQueue st q) j = heapFind st j := rfl
@[simp] theorem setQueue_occupied (st : EState) (q : List Order) (x y : Int) : occupied (setQueue st q) x y = occupied st x y := rfl
@[simp] theorem setQueue_isWalkable (st : EState) (q : List Order) (x y : Int) : isWalkable (setQueue st q) x y = isWalkable st x y := rfl
@[simp] theorem setQueue_findUnit (st : EState) (q : List Order) (tid : Nat) : findUnit (setQueue st q) tid = findUnit st tid := rfl
@[simp] theorem setQueue_findBase (st : EState) (q : List Order) (own2 : Nat) : findBase (setQueue st q) own2 = findBase st own2 := rfl
@[simp] theorem setQueue_posOf (st : EState) (q : List Order) (j : Nat) : posOf (setQueue st q) j = posOf st j := rfl
@[simp] theorem setQueue_actOf (st : EState) (q : List Order) (j : Nat) : actOf (setQueue st q) j = actOf st j := rfl
@[simp] theorem bumpCycle_grid (st : EState) : (bumpCycle st).grid = st.grid := rfl
@[simp] theorem bumpCycle_heap (st : EState) : (bumpCycle st).heap = st.heap := rfl
@[simp] theorem bumpCycle_live (st : EState) : (bumpCycle st).live = st.live := rfl
@[simp] theorem bumpCycle_gold (st : EState) : (bumpCycle st).gold = st.gold := rfl
@[simp] theorem bumpCycle_rewards (st : EState) : (bumpCycle st).rewards = st.rewards := rfl
@[simp] theorem bumpCycle_prodQueue (st : EState) : (bumpCycle st).prodQueue = st.prodQueue := rfl
@[simp] theorem bumpCycle_nextUnitId (st : EState) : (bumpCycle st).nextUnitId = st.nextUnitId := rfl
@[simp] theorem bumpCycle_fogEnabled (st : EState) : (bumpCycle st).fogEnabled = st.fogEnabled := rfl
@[simp] theorem bumpCycle_fogGrid (st : EState) : (bumpCycle st).fogGrid = st.fogGrid := rfl
@[simp] theorem bumpCycle_cycle (st : EState) : (bumpCycle st).cycle = st.cycle + 1 := rfl
@[simp] theorem bumpCycle_events (st : EState) : (bumpCycle st).events = st.events := rfl
@[simp] theorem bumpCycle_rngIdx (st : EState) : (bumpCycle st).rngIdx = st.rngIdx := rfl
@[simp] theorem bumpCycle_heapFind (st : EState) (j : Nat) : heapFind (bumpCycle st) j = heapFind st j := rfl
@[simp] theorem bumpCycle_occupied (st : EState) (x y : Int) : occupied (bumpCycle st) x y = occupied st x y := rfl
@[simp] theorem bumpCycle_isWalkable (st : EState) (x y : Int) : isWalkable (bumpCycle st) x y = isWalkable st x y := rfl
@[simp] theorem bumpCycle_findUnit (st : EState) (tid : Nat) : findUnit (bumpCycle st) tid = findUnit st tid := rfl
@[simp] theorem bumpCycle_findBase (st : EState) (own2 : Nat) : findBase (bumpCycle st) own2 = findBase st own2 := rfl
@[simp] theorem bumpCycle_posOf (st : EState) (j : Nat) : posOf (bumpCycle st) j = posOf st j := rfl
@[simp] theorem bumpCycle_actOf (st : EState) (j : Nat) : actOf (bumpCycle st) j = actOf st j := rfl
@[simp] theorem updUnit_grid (st : EState) (i : Nat) (f : GameUnit → GameUnit) : (updUnit st i f).grid = st.grid := rfl
@[simp] theorem updUnit_live (st : EState) (i : Nat) (f : GameUnit → GameUnit) : (updUnit st i f).live = st.live := rfl
@[simp] theorem updUnit_gold (st : EState) (i : Nat) (f : GameUnit → GameUnit) : (updUnit st i f).gold = st.gold := rfl
@[simp] theorem updUnit_rewards (st : EState) (i : Nat) (f : GameUnit → GameUnit) : (updUnit st i f).rewards = st.rewards := rfl
@[simp] theorem updUnit_prodQueue (st : EState) (i : Nat) (f : GameUnit → GameUnit) : (updUnit st i f).prodQueue = st.prodQueue := rfl
@[simp] theorem updUnit_nextUnitId (st : EState) (i : Nat) (f : GameUnit → GameUnit) : (updUnit st i f).nextUnitId = st.nextUnitId := rfl
@[simp] theorem updUnit_fogEnabled (st : EState) (i : Nat) (f : GameUnit → GameUnit) : (updUnit st i f).fogEnabled = st.fogEnabled := rfl
@[simp] theorem updUnit_fogGrid (st : EState) (i : Nat) (f : GameUnit → GameUnit) : (updUnit st i f).fogGrid = st.fogGrid := rfl
@[simp] theorem updUnit_cycle (st : EState) (i : Nat) (f : GameUnit → GameUnit) : (updUnit st i f).cycle = st.cycle := rfl
@[simp] theorem updUnit_events (st : EState) (i : Nat) (f : GameUnit → GameUnit) : (updUnit st i f).events = st.events := rfl
@[simp] theorem updUnit_rngIdx (st : EState) (i : Nat) (f : GameUnit → GameUnit) : (updUnit st i f).rngIdx = st.rngIdx := rfl
@[simp] theorem removeLive_grid (st : EState) (i : Nat) : (removeLive st i).grid = st.grid := rfl
@[simp] theorem removeLive_heap (st : EState) (i : Nat) : (removeLive st i).heap = st.heap := rfl
@[simp] theorem removeLive_live (st : EState) (i : Nat) : (removeLive st i).live = st.live.filter (fun j => j != i) := rfl
@[simp] theorem removeLive_gold (st : EState) (i : Nat) : (removeLive st i).gold = st.gold := rfl
@[simp] theorem removeLive_rewards (st : EState) (i : Nat) : (removeLive st i).rewards = st.rewards := rfl
@[simp] theorem removeLive_prodQueue (st : EState) (i : Nat) : (removeLive st i).prodQueue = st.prodQueue := rfl
@[simp] theorem removeLive_nextUnitId (st : EState) (i : Nat) : (removeLive st i).nextUnitId = st.nextUnitId := rfl
@[simp] theorem removeLive_fogEnabled (st : EState) (i : Nat) : (removeLive st i).fogEnabled = st.fogEnabled := rfl
@[simp] theorem removeLive_fogGrid (st : EState) (i : Nat) : (removeLive st i).fogGrid = st.fogGrid := rfl
@[simp] theorem removeLive_cycle (st : EState) (i : Nat) : (removeLive st i).cycle = st.cycle := rfl
@[simp] theorem removeLive_events (st : EState) (i : Nat) : (removeLive st i).events = st.events := rfl
@[simp] theorem removeLive_rngIdx (st : EState) (i : Nat) : (removeLive st i).rngIdx = st.rngIdx := rfl
@[simp] theorem removeLive_heapFind (st : EState) (i j : Nat) : heapFind (removeLive st i) j = heapFind st j := rfl
@[simp] theorem removeLive_posOf (st : EState) (i j : Nat) : posOf (removeLive st i) j = posOf st j := rfl
@[simp] theorem removeLive_actOf (st : EState) (i j : Nat) : actOf (removeLive st i) j = actOf st j := rfl
@[simp] theorem spawnUnit_grid (st : EState) (t : UType) (x y : Int) (ow : Nat) : (spawnUnit st t x y ow).grid = st.grid := rfl
@[simp] theorem spawnUnit_gold (st : EState) (t : UType) (x y : Int) (ow : Nat) : (spawnUnit st t x y ow).gold = st.gold := rfl
@[simp] theorem spawnUnit_rewards (st : EState) (t : UType) (x y : Int) (ow : Nat) : (spawnUnit st t x y ow).rewards = st.rewards := rfl
@[simp] theorem spawnUnit_prodQueue (st : EState) (t : UType) (x y : Int) (ow : Nat) : (spawnUnit st t x y ow).prodQueue = st.prodQueue := rfl
@[simp] theorem spawnUnit_fogEnabled (st : EState) (t : UType) (x y : Int) (ow : Nat) : (spawnUnit st t x y ow).fogEnabled = st.fogEnabled := rfl
@[simp] theorem spawnUnit_fogGrid (st : EState) (t : UType) (x y : Int) (ow : Nat) : (spawnUnit st t x y ow).fogGrid = st.fogGrid := rfl
@[simp] theorem spawnUnit_cycle (st : EState) (t : UType) (x y : Int) (ow : Nat) : (spawnUnit st t x y ow).cycle = st.cycle := rfl
@[simp] theorem spawnUnit_events (st : EState) (t : UType) (x y : Int) (ow : Nat) : (spawnUnit st t x y ow).events = st.events := rfl
@[simp] theorem spawnUnit_rngIdx (st : EState) (t : UType) (x y : Int) (ow : Nat) : (spawnUnit st t x y ow).rngIdx = st.rngIdx := rfl
@[simp] theorem spawnUnit_live (st : EState) (t : UType) (x y : Int) (ow : Nat) : (spawnUnit st t x y ow).live = st.live ++ [st.nextUnitId] := rfl
@[simp] theorem spawnUnit_nextUnitId (st : EState) (t : UType) (x y : Int) (ow : Nat) : (spawnUnit st t x y ow).nextUnitId = st.nextUnitId + 1 := rfl
theorem spawnUnit_heap (st : EState) (t : UType) (x y : Int) (ow : Nat) :
    (spawnUnit st t x y ow).heap = st.heap ++
      [{ id := st.nextUnitId, utype := t, owner := ow, gx := x, gy := y,
         hp := hpOf t, maxHp := hpOf t, action := .noop, target := .none,
         progress := 0, carrying := 0 }] := rfl

theorem findUnit_eq_some {st : EState} {tid : Nat} {t : GameUnit} :
    findUnit st tid = some t ↔
      st.live.contains tid = true ∧ heapFind st tid = some t := by
  unfold findUnit
  by_cases h : st.live.contains tid <;> simp [h]

theorem domStep_fst (gx gy tx ty : Int) :
    gx + (if (ty - gy).natAbs < (tx - gx).natAbs then (tx - gx).sign else 0)
      = (domStep gx gy tx ty).1 := by
  unfold domStep
  by_cases hax : (ty - gy).natAbs < (tx - gx).natAbs
  · rw [if_pos hax, if_pos hax]
  · rw [if_neg hax, if_neg hax]
    simp

theorem domStep_snd (gx gy tx ty : Int) :
    gy + (if (tx - gx).natAbs ≤ (ty - gy).natAbs then (ty - gy).sign else 0)
      = (domStep gx gy tx ty).2 := by
  unfold domStep
  by_cases hax : (ty - gy).natAbs < (tx - gx).natAbs
  · rw [if_pos hax, if_neg (by omega)]
    simp
  · rw [if_neg hax, if_pos (by omega)]

/-! ### Claim theorems -/

/-- **C6.** For every unit in the `return` action with a cell target:
when its Manhattan distance to the target is ≤ 1, it deposits all
carried resources into the resource pool at 25 currency per carried
unit, its carried count resets to exactly 0, and its action becomes
idle (without moving); when the distance is greater it instead takes
one single-axis-dominant step toward the target (if the destination is
walkable; otherwise it stays put, state unchanged). -/
theorem C6_return_deposit :
    ∀ (st : EState) (uid : Nat) (u : GameUnit) (tx ty : Int),
      heapFind st uid = some u → u.action = .ret → u.target = .cell tx ty →
      (distM u.gx u.gy tx ty ≤ 1 →
        (stepUnit st uid).gold = st.gold + (u.carrying : Int) * 25 ∧
        (heapFind (stepUnit st uid) uid).map (fun v => v.carrying) = some 0 ∧
        actOf (stepUnit st uid) uid = some Act.noop ∧
        posOf (stepUnit st uid) uid = some (u.gx, u.gy)) ∧
      (1 < distM u.gx u.gy tx ty →
        (stepUnit st uid).gold = st.gold ∧
        (heapFind (stepUnit st uid) uid).map (fun v => v.carrying) = some u.carrying ∧
        actOf (stepUnit st uid) uid = some Act.ret ∧
        (isWalkable st (domStep u.gx u.gy tx ty).1 (domStep u.gx u.gy tx ty).2 = true →
          posOf (stepUnit st uid) uid = some (domStep u.gx u.gy tx ty)) ∧
        (isWalkable st (domStep u.gx u.gy tx ty).1 (domStep u.gx u.gy tx ty).2 = false →
          stepUnit st uid = st)) := by
  intro st uid u tx ty h ha ht
  constructor
  · intro hd
    rw [show distM u.gx u.gy tx ty = (tx - u.gx).natAbs + (ty - u.gy).natAbs from rfl] at hd
    simp only [stepUnit, h, ha, ht]
    rw [if_pos hd]
    refine ⟨by simp, ?_, ?_, ?_⟩
    · simp [heapFind_updUnit_self, h]
    · simp [actOf, heapFind_updUnit_self, h]
    · simp [posOf, heapFind_updUnit_self, h]
  · intro hd
    rw [show distM u.gx u.gy tx ty = (tx - u.gx).natAbs + (ty - u.gy).natAbs from rfl] at hd
    simp only [stepUnit, h, ha, ht]
    rw [if_neg (by omega), domStep_fst u.gx u.gy tx ty, domStep_snd u.gx u.gy tx ty]
    by_cases hw : isWalkable st (domStep u.gx u.gy tx ty).1 (domStep u.gx u.gy tx ty).2 = true
    · rw [if_pos hw]
      refine ⟨by simp [moveTo], ?_, ?_, fun _ => ?_, fun hc => by rw [hw] at hc; cases hc⟩
      · simp [moveTo, heapFind_updUnit_self, h]
      · simp [actOf, moveTo, heapFind_updUnit_self, h, ha]
      · simp [posOf, moveTo, heapFind_updUnit_self, h]
    · rw [if_neg hw]
      refine ⟨rfl, by simp [h], by simp [actOf, h, ha], fun hc => absurd hc hw, fun _ => rfl⟩

/-- Witness for C6 at a concrete deposit: a worker carrying 2, adjacent
to its target, banks 50 gold, resets to 0 carried and goes idle. -/
theorem C6_return_deposit_witness :
    (stepUnit retSt 1).gold = retSt.gold + (retU.carrying : Int) * 25 ∧
    (heapFind (stepUnit retSt 1) 1).map (fun v => v.carrying) = some 0 ∧
    actOf (stepUnit retSt 1) 1 = some Act.noop ∧
    posOf (stepUnit retSt 1) 1 = some (retU.gx, retU.gy) :=
  (C6_return_deposit retSt 1 retU 1 1 rfl rfl rfl).1 (by decide)

/-- **C9.** For every unit in the `move` action with a cell target: the
single-step destination is on the axis of larger absolute delta, ties
moving vertically (`domStep`); if that destination is occupied or not
walkable, the unit keeps its position and its `move` action (and its
target) unchanged; and the action becomes idle exactly when the
position after the step equals the target. -/
theorem C9_move_step :
    ∀ (st : EState) (uid : Nat) (u : GameUnit) (tx ty : Int),
      heapFind st uid = some u → u.action = .move → u.target = .cell tx ty →
      ((u.gx = tx ∧ u.gy = ty) →
        posOf (stepUnit st uid) uid = some (u.gx, u.gy) ∧
        actOf (stepUnit st uid) uid = some Act.noop) ∧
      (¬(u.gx = tx ∧ u.gy = ty) →
        (isWalkable st (domStep u.gx u.gy tx ty).1 (domStep u.gx u.gy tx ty).2 = false →
          stepUnit st uid = st ∧
          posOf (stepUnit st uid) uid = some (u.gx, u.gy) ∧
          actOf (stepUnit st uid) uid = some Act.move ∧
          (heapFind (stepUnit st uid) uid).map (fun v => v.target)
            = some (Tgt.cell tx ty)) ∧
        (isWalkable st (domStep u.gx u.gy tx ty).1 (domStep u.gx u.gy tx ty).2 = true →
          posOf (stepUnit st uid) uid = some (domStep u.gx u.gy tx ty) ∧
          (actOf (stepUnit st uid) uid = some Act.noop ↔
            domStep u.gx u.gy tx ty = (tx, ty)) ∧
          (domStep u.gx u.gy tx ty ≠ (tx, ty) →
            actOf (stepUnit st uid) uid = some Act.move))) := by
  intro st uid u tx ty h ha ht
  constructor
  · intro hat
    simp only [stepUnit, h, ha, ht]
    rw [if_pos (by omega : tx - u.gx = 0 ∧ ty - u.gy = 0)]
    constructor
    · simp [posOf, clearAct, heapFind_updUnit_self, h]
    · simp [actOf, clearAct, heapFind_updUnit_self, h]
  · intro hat
    have hne : ¬(tx - u.gx = 0 ∧ ty - u.gy = 0) := by omega
    constructor
    · intro hw
      have hres : stepUnit st uid = st := by
        simp only [stepUnit, h, ha, ht]
        rw [if_neg hne, domStep_fst u.gx u.gy tx ty, domStep_snd u.gx u.gy tx ty, hw]
        simp only [Bool.false_eq_true, if_false]
        rw [if_neg (by omega : ¬(u.gx = tx ∧ u.gy = ty))]
      refine ⟨hres, ?_, ?_, ?_⟩ <;> rw [hres]
      · simp [posOf, h]
      · simp [actOf, h, ha]
      · simp [h, ht]
    · intro hw
      simp only [stepUnit, h, ha, ht]
      rw [if_neg hne, domStep_fst u.gx u.gy tx ty, domStep_snd u.gx u.gy tx ty, hw]
      simp only [if_true]
      by_cases harr : domStep u.gx u.gy tx ty = (tx, ty)
      · rw [if_pos (by rw [Prod.ext_iff] at harr; exact harr)]
        refine ⟨?_, ?_, fun hc => absurd harr hc⟩
        · simp [posOf, clearAct, moveTo, heapFind_updUnit_self, h, harr]
        · simp [actOf, clearAct, moveTo, heapFind_updUnit_self, h, harr]
      · rw [if_neg (by rw [Prod.ext_iff] at harr; exact fun hc => harr ⟨hc.1, hc.2⟩)]
        refine ⟨?_, ?_, fun _ => ?_⟩
        · simp [posOf, moveTo, heapFind_updUnit_self, h]
        · simp [actOf, moveTo, heapFind_updUnit_self, h, ha]
          exact fun hc => absurd hc harr
        · simp [actOf, moveTo, heapFind_updUnit_self, h, ha]

/-- Witness for C9: a worker at (3,3) moving toward (3,5) steps to the
vertically dominant destination (3,4) and keeps moving. -/
theorem C9_move_step_witness :
    posOf (stepUnit moveSt 1) 1 = some (domStep 3 3 3 5) ∧
    (actOf (stepUnit moveSt 1) 1 = some Act.noop ↔ domStep 3 3 3 5 = (3, 5)) ∧
    (domStep 3 3 3 5 ≠ (3, 5) → actOf (stepUnit moveSt 1) 1 = some Act.move) :=
  ((C9_move_step moveSt 1 moveU 3 5 rfl rfl rfl).2 (by decide)).2 (by decide)

/-- **C7.** For every attacking unit with a live target: in Manhattan
range, the target loses exactly `attack * 0.2` hp that tick; if that
brings its hp ≤ 0 the target is removed from the registry, the
attacker's action is cleared to idle, and exactly one kill event fires;
out of range, the attacker takes one sign-delta step on both axes when
walkable and no-ops when blocked.  Concretely (attack 4, range 1,
target hp 2): the target survives tick 2 at hp 2/5 and is removed on
exactly the 3rd tick with a single kill event. -/
theorem C7_attack_resolution :
    (∀ (st : EState) (uid tid : Nat) (u t : GameUnit),
      heapFind st uid = some u → u.action = .attack → u.target = .unit tid →
      findUnit st tid = some t → 0 < t.hp →
      (distM u.gx u.gy t.gx t.gy ≤ rangeOf u.utype →
        (0 < t.hp - attackOf u.utype * (1/5) →
          findUnit (stepUnit st uid) tid
            = some { t with hp := t.hp - attackOf u.utype * (1/5) } ∧
          (stepUnit st uid).events = st.events) ∧
        (t.hp - attackOf u.utype * (1/5) ≤ 0 →
          (stepUnit st uid).live = st.live.filter (fun j => j != tid) ∧
          actOf (stepUnit st uid) uid = some Act.noop ∧
          (stepUnit st uid).events = st.events ++ [Ev.kill tid] ∧
          (heapFind (stepUnit st uid) tid).map (fun v => v.hp)
            = some (t.hp - attackOf u.utype * (1/5)))) ∧
      (¬(distM u.gx u.gy t.gx t.gy ≤ rangeOf u.utype) →
        (isWalkable st (u.gx + (t.gx - u.gx).sign) (u.gy + (t.gy - u.gy).sign) = true →
          posOf (stepUnit st uid) uid
            = some (u.gx + (t.gx - u.gx).sign, u.gy + (t.gy - u.gy).sign)) ∧
        (isWalkable st (u.gx + (t.gx - u.gx).sign) (u.gy + (t.gy - u.gy).sign) = false →
          stepUnit st uid = st))) ∧
    ((findUnit (runTicks rng1 2 combatSt) 2).map (fun v => v.hp) = some (2/5)) ∧
    ((runTicks rng1 3 combatSt).live = [1]) ∧
    (actOf (runTicks rng1 3 combatSt) 1 = some Act.noop) ∧
    ((runTicks rng1 3 combatSt).events = [Ev.kill 2]) ∧
    ((heapFind (runTicks rng1 3 combatSt) 2).map (fun v => v.hp) = some (-(2/5))) := by
  refine ⟨?_, by decide, by decide, by decide, by decide, by decide⟩
  intro st uid tid u t h ha ht hf hhp
  constructor
  · intro hdist
    simp only [stepUnit, h, ha, ht, hf]
    rw [if_neg (not_le.mpr hhp), if_pos hdist]
    constructor
    · intro hpos
      rw [if_neg (not_le.mpr hpos)]
      obtain ⟨hcont, hfind⟩ := findUnit_eq_some.mp hf
      constructor
      · rw [findUnit_eq_some]
        refine ⟨by simpa using hcont, ?_⟩
        simp [heapFind_updUnit_self, hfind]
      · simp
    · intro hneg
      rw [if_pos hneg]
      obtain ⟨hcont, hfind⟩ := findUnit_eq_some.mp hf
      have htid : t.id = tid := heapFind_id hfind
      refine ⟨by simp [clearAct], ?_, by simp [clearAct], ?_⟩
      · by_cases huid : uid = tid
        · subst huid
          simp [actOf, clearAct, heapFind_updUnit_self, hfind]
        · simp [actOf, clearAct, heapFind_updUnit_self, heapFind_updUnit_other,
            huid, h]
      · simp [clearAct, heapFind_updUnit, heapFind_updUnit_self, hfind, htid,
          apply_ite (fun v => GameUnit.hp v)]
  · intro hdist
    simp only [stepUnit, h, ha, ht, hf]
    rw [if_neg (not_le.mpr hhp), if_neg hdist]
    constructor
    · intro hw
      rw [hw]
      simp [posOf, moveTo, heapFind_updUnit_self, h]
    · intro hw
      rw [hw]
      simp

/-- Witness for C7's parametric part at the concrete combat state: the
heavy's first strike leaves the light at hp `2 - 4*0.2` with no event. -/
theorem C7_attack_resolution_witness :
    findUnit (stepUnit combatSt 1) 2
      = some { lightU with hp := lightU.hp - attackOf UType.heavy * (1/5) } ∧
    (stepUnit combatSt 1).events = combatSt.events :=
  ((C7_attack_resolution.1 combatSt 1 2 heavyU lightU rfl rfl rfl (by decide)
    (by decide)).1 (by decide)).1 (by decide)

/-- **C5 counterexample.** The action resolver does not require a
Resource cell for harvesting: a worker standing on a plain Free cell
(terrain value 0) with the `harvest` action still accrues progress and,
after 10 ticks, carries 1 resource while never having left that cell. -/
theorem C5_harvest_offres_cex :
    cellAt offResSt.grid 5 5 = 0 ∧
    (findUnit offResSt 2).map (fun v => (v.gx, v.gy, v.action, v.carrying))
      = some (5, 5, Act.harvest, 0) ∧
    (findUnit (runTicks rng1 10 offResSt) 2).map (fun v => (v.gx, v.gy, v.carrying))
      = some (5, 5, 1) := by
  refine ⟨by decide, by decide, by decide⟩

/-- **C5 amended.** Any unit in the `harvest` action accrues progress
each tick regardless of the terrain it stands on (the Resource-cell
check happens only when the command is issued, and substituting an
arbitrary grid does not change the step at all); when the accrued
progress reaches 10 the unit gains +1 carried resource capped at 4,
its progress resets to 0 and one harvest event fires; once the new
carried total is ≥ 2 it transitions to `return`, targeting its owner's
first base when one exists (and keeping its old target otherwise).
Concretely: after 1 tick progress is 1; after 10 ticks carried = 1 and
progress = 0, still harvesting; after 20 ticks carried = 2 with action
`return` targeting the base at (1,1); a full worker (carried 4)
finishing another cycle stays capped at 4. -/
theorem C5_harvest_cycle :
    (∀ (st : EState) (uid : Nat) (u : GameUnit),
      heapFind st uid = some u → u.action = Act.harvest →
      (u.progress + 1 < 10 →
        heapFind (stepUnit st uid) uid
          = some { u with progress := u.progress + 1 } ∧
        (stepUnit st uid).events = st.events) ∧
      (10 ≤ u.progress + 1 →
        (stepUnit st uid).events = st.events ++ [Ev.harvested] ∧
        (min (u.carrying + 1) 4 < 2 →
          heapFind (stepUnit st uid) uid
            = some { u with progress := 0, carrying := min (u.carrying + 1) 4 }) ∧
        (2 ≤ min (u.carrying + 1) 4 →
          (∀ b : GameUnit, findBase st u.owner = some b →
            heapFind (stepUnit st uid) uid
              = some { u with progress := 0, carrying := min (u.carrying + 1) 4,
                              action := Act.ret,
                              target := Tgt.cell b.gx b.gy }) ∧
          (findBase st u.owner = Option.none →
            heapFind (stepUnit st uid) uid
              = some { u with progress := 0, carrying := min (u.carrying + 1) 4,
                              action := Act.ret })))) ∧
    (∀ (st : EState) (g : List (List Nat)) (uid : Nat) (u : GameUnit),
      heapFind st uid = some u → u.action = Act.harvest →
      stepUnit (setGrid st g) uid = setGrid (stepUnit st uid) g) ∧
    ((findUnit (runTicks rng1 1 harvestSt) 2).map (fun v => v.progress) = some 1) ∧
    ((findUnit (runTicks rng1 10 harvestSt) 2).map
        (fun v => (v.carrying, v.progress, v.action)) = some (1, 0, Act.harvest)) ∧
    ((findUnit (runTicks rng1 20 harvestSt) 2).map
        (fun v => (v.carrying, v.action, v.target))
      = some (2, Act.ret, Tgt.cell 1 1)) ∧
    ((findBase harvestSt 1).map (fun b => (b.gx, b.gy)) = some (1, 1)) ∧
    ((heapFind (gameTick rng1 capSt) 1).map (fun v => (v.carrying, v.progress))
      = some (4, 0)) := by
  refine ⟨?_, ?_, by decide, by decide, by decide, by decide, by decide⟩
  · intro st uid u h ha
    obtain ⟨tg, htg⟩ : ∃ tg, u.target = tg := ⟨u.target, rfl⟩
    cases tg <;>
    · simp only [stepUnit, h, ha, htg]
      constructor
      · intro hlt
        rw [if_neg (Nat.not_le.mpr hlt)]
        exact ⟨by simp [heapFind_updUnit_self, h, ha, htg], rfl⟩
      · intro hge
        rw [if_pos hge]
        by_cases hc : 2 ≤ min (u.carrying + 1) 4
        · rw [if_pos hc]
          have hfb : findBase (updUnit (addEvent (updUnit st uid
                (fun v => { v with progress := 0, carrying := min (u.carrying + 1) 4 }))
                Ev.harvested) uid (fun v => { v with action := Act.ret })) u.owner
              = ((findBase st u.owner).map
                  (fun v => if v.id == uid
                    then { v with progress := 0, carrying := min (u.carrying + 1) 4 }
                    else v)).map
                  (fun v => if v.id == uid then { v with action := Act.ret } else v) := by
            rw [findBase_updUnit (fun v => { v with action := Act.ret })
                  (fun v => rfl) (fun v => rfl) (fun v => rfl) u.owner,
                addEvent_findBase,
                findBase_updUnit
                  (fun v => { v with progress := 0, carrying := min (u.carrying + 1) 4 })
                  (fun v => rfl) (fun v => rfl) (fun v => rfl) u.owner]
          split
          · rename_i b' heq
            refine ⟨rfl, fun hlt => absurd hlt (Nat.not_lt.mpr hc), fun _ => ⟨?_, ?_⟩⟩
            · intro b hb
              rw [hfb, hb] at heq
              simp only [Option.map_some', Option.some.injEq] at heq
              subst heq
              by_cases hbid : (b.id == uid) = true <;>
                simp [heapFind_updUnit_self, h, hbid, ha, htg]
            · intro hnone
              rw [hfb, hnone] at heq
              simp at heq
          · rename_i heq
            refine ⟨rfl, fun hlt => absurd hlt (Nat.not_lt.mpr hc), fun _ => ⟨?_, ?_⟩⟩
            · intro b hb
              rw [hfb, hb] at heq
              simp at heq
            · intro _
              simp [heapFind_updUnit_self, h, ha, htg]
        · rw [if_neg hc]
          exact ⟨rfl, fun _ => by simp [heapFind_updUnit_self, h, ha, htg],
                 fun h2 => absurd h2 hc⟩
  · intro st g uid u h ha
    have h' : heapFind (setGrid st g) uid = some u := h
    obtain ⟨tg, htg⟩ : ∃ tg, u.target = tg := ⟨u.target, rfl⟩
    cases tg <;>
    · simp only [stepUnit, h, h', ha, htg]
      by_cases hp10 : 10 ≤ u.progress + 1
      · rw [if_pos hp10, if_pos hp10]
        by_cases hc : 2 ≤ min (u.carrying + 1) 4
        · rw [if_pos hc, if_pos hc]
          have hfb : findBase (updUnit (addEvent (updUnit (setGrid st g) uid
                (fun v => { v with progress := 0, carrying := min (u.carrying + 1) 4 }))
                Ev.harvested) uid (fun v => { v with action := Act.ret })) u.owner
              = findBase (updUnit (addEvent (updUnit st uid
                (fun v => { v with progress := 0, carrying := min (u.carrying + 1) 4 }))
                Ev.harvested) uid (fun v => { v with action := Act.ret })) u.owner := rfl
          rw [hfb]
          split <;> rfl
        · rw [if_neg hc, if_neg hc]
          rfl
      · rw [if_neg hp10, if_neg hp10]
        rfl

/-- Witness for C5's universal part: one tick of harvesting at the
concrete harvest state advances progress to 1 with no event; the full
worker (carried 4, progress 9, no base anywhere) completes a cycle,
stays capped at 4 and turns to `return`; and substituting an all-wall
grid changes nothing about the harvesting step. -/
theorem C5_harvest_witness :
    (heapFind (stepUnit harvestSt 2) 2
        = some { workerU with progress := workerU.progress + 1 } ∧
      (stepUnit harvestSt 2).events = harvestSt.events) ∧
    heapFind (stepUnit capSt 1) 1
      = some { capU with progress := 0, carrying := min (capU.carrying + 1) 4,
                         action := Act.ret } ∧
    stepUnit (setGrid harvestSt (List.replicate 16 (List.replicate 16 1))) 2
      = setGrid (stepUnit harvestSt 2) (List.replicate 16 (List.replicate 16 1)) :=
  ⟨(C5_harvest_cycle.1 harvestSt 2 workerU rfl rfl).1 (by decide),
   (((C5_harvest_cycle.1 capSt 1 capU rfl rfl).2 (by decide)).2.2 (by decide)).2
     (by decide),
   C5_harvest_cycle.2.1 harvestSt (List.replicate 16 (List.replicate 16 1)) 2
     workerU rfl rfl⟩

/-- **C1 counterexample.** A production order completing on a tick when
none of its 6 spawn offsets is walkable is *not* kept in the queue: the
backward loop splices it out unconditionally, so the queue is empty
afterwards and no unit was instantiated (the claim asserted it would
remain queued at full progress and be retried). -/
theorem C1_blocked_order_cex :
    prodCexSt.prodQueue = [stuckOrder] ∧
    stuckOrder.total ≤ stuckOrder.progress + 1 ∧
    (∀ p ∈ spotsOf stuckOrder.gx stuckOrder.gy,
      isWalkable prodCexSt p.1 p.2 = false) ∧
    (processProduction prodCexSt).prodQueue = [] ∧
    (processProduction prodCexSt).heap = [] ∧
    (processProduction prodCexSt).live = [] := by
  refine ⟨rfl, by decide, by decide, by decide, by decide, by decide⟩

/-- **C1 amended.** When an order completes and none of the 6 fixed
offsets around its origin is walkable, no unit is instantiated and the
order is nonetheless removed from the queue (the build is lost, never
retried).  Of two orders completing on the same tick with a single free
spot, exactly one materializes — the one at the higher queue index,
since the loop walks the queue backward — and the other is discarded. -/
theorem C1_blocked_order_amended :
    (∀ (st : EState) (o : Order), st.prodQueue = [o] →
      o.total ≤ o.progress + 1 →
      (∀ p ∈ spotsOf o.gx o.gy, isWalkable st p.1 p.2 = false) →
      (processProduction st).prodQueue = [] ∧
      (processProduction st).heap = st.heap ∧
      (processProduction st).live = st.live) ∧
    ((processProduction prodTwoSt).prodQueue = [] ∧
      (processProduction prodTwoSt).live = [prodTwoSt.nextUnitId] ∧
      (processProduction prodTwoSt).heap.map (fun v => v.utype) = [UType.light]) := by
  constructor
  · intro st o hq hdone hblock
    have hfind : (spotsOf o.gx o.gy).find? (fun p => isWalkable st p.1 p.2)
        = Option.none :=
      List.find?_eq_none.mpr (fun p hp => by simp [hblock p hp])
    unfold processProduction
    rw [hq]
    simp only [prodGo]
    rw [if_pos (by simpa using hdone)]
    simp [finishOrder, hfind]
  · exact ⟨by decide, by decide, by decide⟩

/-- Witness for C1's parametric part at the concrete blocked state. -/
theorem C1_blocked_order_witness :
    (processProduction prodCexSt).prodQueue = [] ∧
    (processProduction prodCexSt).heap = prodCexSt.heap ∧
    (processProduction prodCexSt).live = prodCexSt.live :=
  C1_blocked_order_amended.1 prodCexSt stuckOrder rfl (by decide) (by decide)

/-! ### Equation forms of the attack branch (shared helpers) -/

theorem stepUnit_noop_eq {st : EState} {uid : Nat} {u : GameUnit}
    (h : heapFind st uid = some u) (ha : u.action = .noop) :
    stepUnit st uid = st := by
  simp only [stepUnit, h, ha]

theorem stepUnit_attack_eq_hit {st : EState} {uid tid : Nat} {u t : GameUnit}
    (h : heapFind st uid = some u) (ha : u.action = .attack)
    (ht : u.target = .unit tid) (hf : findUnit st tid = some t)
    (hhp : 0 < t.hp) (hdist : distM u.gx u.gy t.gx t.gy ≤ rangeOf u.utype)
    (hpos : 0 < t.hp - attackOf u.utype * (1/5)) :
    stepUnit st uid =
      setRewards
        (updUnit st tid (fun v => { v with hp := t.hp - attackOf u.utype * (1/5) }))
        { st.rewards with attack := st.rewards.attack + 1/20 } := by
  simp only [stepUnit, h, ha, ht, hf]
  rw [if_neg (not_le.mpr hhp), if_pos hdist, if_neg (not_le.mpr hpos)]
  rfl

theorem stepUnit_attack_eq_kill {st : EState} {uid tid : Nat} {u t : GameUnit}
    (h : heapFind st uid = some u) (ha : u.action = .attack)
    (ht : u.target = .unit tid) (hf : findUnit st tid = some t)
    (hhp : 0 < t.hp) (hdist : distM u.gx u.gy t.gx t.gy ≤ rangeOf u.utype)
    (hkill : t.hp - attackOf u.utype * (1/5) ≤ 0) :
    stepUnit st uid =
      clearAct
        (removeLive
          (setRewards
            (addEvent
              (setRewards
                (updUnit st tid
                  (fun v => { v with hp := t.hp - attackOf u.utype * (1/5) }))
                { st.rewards with attack := st.rewards.attack + 1/20 })
              (Ev.kill tid))
            { st.rewards with attack := st.rewards.attack + 1/20,
                              combat := st.rewards.combat + 1/5 })
          tid)
        uid := by
  simp only [stepUnit, h, ha, ht, hf]
  rw [if_neg (not_le.mpr hhp), if_pos hdist, if_pos hkill]
  rfl

/-- **C4.** The set of units visited by an action-resolution pass is
fixed at pass entry: a unit destroyed earlier in the same pass is still
visited, and if its action is attack on a live in-range target it still
deals its damage that same tick.  Concretely: with registry `[a, b, c]`
where `a`'s strike kills `b` and `b` is attacking `c` in range, after
the pass `b` is gone from the registry yet `c` has lost exactly
`b.attack * 0.2` hp. -/
theorem C4_dead_unit_still_acts :
    ∀ (st : EState) (a b c : GameUnit),
      st.heap = [a, b, c] → st.live = [a.id, b.id, c.id] →
      a.id ≠ b.id → a.id ≠ c.id → b.id ≠ c.id →
      a.action = .attack → a.target = .unit b.id →
      0 < b.hp → distM a.gx a.gy b.gx b.gy ≤ rangeOf a.utype →
      b.hp - attackOf a.utype * (1/5) ≤ 0 →
      b.action = .attack → b.target = .unit c.id →
      0 < c.hp → distM b.gx b.gy c.gx c.gy ≤ rangeOf b.utype →
      c.action = .noop →
      b.id ∉ (processActions st).live ∧
      (heapFind (processActions st) c.id).map (fun v => v.hp)
        = some (c.hp - attackOf b.utype * (1/5)) := by
  intro st a b c hheap hlive hab hac hbc haact hatgt hbhp hadist hakill hbact
    hbtgt hchp hbdist hcact
  have hba := Ne.symm hab
  have hca := Ne.symm hac
  have hcb := Ne.symm hbc
  have eab : (a.id == b.id) = false := by simp [hab]
  have eac : (a.id == c.id) = false := by simp [hac]
  have ebc : (b.id == c.id) = false := by simp [hbc]
  have nab : (a.id != b.id) = true := by simp [hab]
  have nac : (a.id != c.id) = true := by simp [hac]
  have ncb : (c.id != b.id) = true := by simp [hcb]
  have hA : heapFind st a.id = some a := by
    simp [heapFind, hheap, List.find?]
  have hB : heapFind st b.id = some b := by
    simp [heapFind, hheap, List.find?, eab]
  have hC : heapFind st c.id = some c := by
    simp [heapFind, hheap, List.find?, eac, ebc]
  have hfB : findUnit st b.id = some b :=
    findUnit_eq_some.mpr ⟨by simp [hlive], hB⟩
  rw [processActions, hlive]
  simp only [List.foldl]
  rw [stepUnit_attack_eq_kill hA haact hatgt hfB hbhp hadist hakill]
  set sA := clearAct
    (removeLive
      (setRewards
        (addEvent
          (setRewards
            (updUnit st b.id
              (fun v => { v with hp := b.hp - attackOf a.utype * (1/5) }))
            { st.rewards with attack := st.rewards.attack + 1/20 })
          (Ev.kill b.id))
        { st.rewards with attack := st.rewards.attack + 1/20,
                          combat := st.rewards.combat + 1/5 })
      b.id)
    a.id with hsA
  have hB2 : heapFind sA b.id
      = some { b with hp := b.hp - attackOf a.utype * (1/5) } := by
    rw [hsA]
    simp [clearAct, heapFind_updUnit_other, heapFind_updUnit_self, hB, hba]
  have hC2 : heapFind sA c.id = some c := by
    rw [hsA]
    simp [clearAct, heapFind_updUnit_other, heapFind_updUnit_self, hC, hca, hcb]
  have hliveA : sA.live = [a.id, c.id] := by
    rw [hsA]
    simp [clearAct, hlive, List.filter, nab, ncb]
  have hfC : findUnit sA c.id = some c :=
    findUnit_eq_some.mpr ⟨by simp [hliveA], hC2⟩
  by_cases hckill : c.hp - attackOf b.utype * (1/5) ≤ 0
  · rw [stepUnit_attack_eq_kill hB2 hbact hbtgt hfC hchp hbdist hckill]
    set sB := clearAct
      (removeLive
        (setRewards
          (addEvent
            (setRewards
              (updUnit sA c.id
                (fun v => { v with hp := c.hp - attackOf b.utype * (1/5) }))
              { sA.rewards with attack := sA.rewards.attack + 1/20 })
            (Ev.kill c.id))
          { sA.rewards with attack := sA.rewards.attack + 1/20,
                            combat := sA.rewards.combat + 1/5 })
        c.id)
      b.id with hsB
    have hC3 : heapFind sB c.id
        = some { c with hp := c.hp - attackOf b.utype * (1/5) } := by
      rw [hsB]
      simp [clearAct, heapFind_updUnit_other, heapFind_updUnit_self, hC2, hcb]
    have hstep : stepUnit sB c.id = sB :=
      stepUnit_noop_eq hC3 (by simpa using hcact)
    rw [hstep]
    constructor
    · rw [hsB]
      simp [clearAct, hliveA, List.filter, nac, hba]
    · rw [hC3]
      rfl
  · rw [stepUnit_attack_eq_hit hB2 hbact hbtgt hfC hchp hbdist (not_le.mp hckill)]
    set sB := setRewards
      (updUnit sA c.id (fun v => { v with hp := c.hp - attackOf b.utype * (1/5) }))
      { sA.rewards with attack := sA.rewards.attack + 1/20 } with hsB
    have hC3 : heapFind sB c.id
        = some { c with hp := c.hp - attackOf b.utype * (1/5) } := by
      rw [hsB]
      simp [heapFind_updUnit_self, hC2]
    have hstep : stepUnit sB c.id = sB :=
      stepUnit_noop_eq hC3 (by simpa using hcact)
    rw [hstep]
    constructor
    · rw [hsB]
      simp [hliveA, hba, hbc]
    · rw [hC3]
      rfl

/-- Witness for C4 at a concrete pass: the heavy kills the wounded
light before the light's turn, yet the light still wounds its own
target that same pass. -/
theorem C4_dead_unit_still_acts_witness :
    bU.id ∉ (processActions deadSt).live ∧
    (heapFind (processActions deadSt) cU.id).map (fun v => v.hp)
      = some (cU.hp - attackOf bU.utype * (1/5)) :=
  C4_dead_unit_still_acts deadSt aU bU cU rfl rfl (by decide) (by decide)
    (by decide) rfl rfl (by decide) (by decide) (by decide) rfl rfl
    (by decide) (by decide) rfl

/-! ### Occupancy, allocation and health invariant machinery -/

theorem occupied_eq_false_iff {st : EState} {x y : Int} :
    occupied st x y = false ↔ ∀ j ∈ st.live, posOf st j ≠ some (x, y) := by
  unfold occupied
  rw [List.any_eq_false]
  apply forall_congr'
  intro j
  apply imp_congr_right
  intro _
  unfold posOf
  cases hfj : heapFind st j with
  | none => simp
  | some v =>
    simp only [Option.map_some', ne_eq, Option.some.injEq, Prod.mk.injEq,
      Bool.and_eq_true, beq_iff_eq]

theorem isWalkable_not_occupied {st : EState} {x y : Int}
    (h : isWalkable st x y = true) : occupied st x y = false := by
  unfold isWalkable at h
  simp only [Bool.and_eq_true, Bool.not_eq_true', Bool.not_eq_true] at h
  exact h.2

theorem posOf_updUnit_keep {st : EState} {i : Nat} (f : GameUnit → GameUnit)
    (hf : ∀ v, (f v).id = v.id)
    (hp : ∀ v, (f v).gx = v.gx ∧ (f v).gy = v.gy) (j : Nat) :
    posOf (updUnit st i f) j = posOf st j := by
  unfold posOf
  rw [heapFind_updUnit f hf j]
  cases hj : heapFind st j with
  | none => rfl
  | some v =>
    simp only [Option.map_some', Option.some.injEq]
    by_cases hv : (v.id == i) = true <;> simp [hv, (hp v).1, (hp v).2]

theorem posOf_moveTo_self (st : EState) (i : Nat) (x y : Int) :
    posOf (moveTo st i x y) i = (posOf st i).map (fun _ => (x, y)) := by
  unfold posOf moveTo
  rw [heapFind_updUnit_self (fun u => { u with gx := x, gy := y }) (fun v => rfl)]
  cases heapFind st i <;> rfl

theorem posOf_moveTo_other (st : EState) (i : Nat) (x y : Int) {j : Nat}
    (hj : j ≠ i) : posOf (moveTo st i x y) j = posOf st j := by
  unfold posOf moveTo
  rw [heapFind_updUnit_other (fun u => { u with gx := x, gy := y }) (fun v => rfl) hj]

theorem dp_updUnit_keep {st : EState} {i : Nat} (f : GameUnit → GameUnit)
    (hf : ∀ v, (f v).id = v.id)
    (hpos : ∀ v, (f v).gx = v.gx ∧ (f v).gy = v.gy)
    (h : distinctPos st) : distinctPos (updUnit st i f) := by
  intro a ha b hb hab
  rw [posOf_updUnit_keep f hf hpos, posOf_updUnit_keep f hf hpos]
  exact h a ha b hb hab

theorem dp_removeLive {st : EState} {i : Nat}
    (h : distinctPos st) : distinctPos (removeLive st i) := by
  intro a ha b hb hab
  exact h a (List.mem_filter.mp ha).1 b (List.mem_filter.mp hb).1 hab

theorem dp_moveTo {st : EState} {i : Nat} {x y : Int}
    (hocc : occupied st x y = false)
    (h : distinctPos st) : distinctPos (moveTo st i x y) := by
  have hfar := occupied_eq_false_iff.mp hocc
  intro a ha b hb hab
  have ha0 : a ∈ st.live := ha
  have hb0 : b ∈ st.live := hb
  by_cases hai : a = i
  · subst hai
    rw [posOf_moveTo_self]
    cases hpa : posOf st a with
    | none => exact Or.inl rfl
    | some p =>
      refine Or.inr ?_
      rw [posOf_moveTo_other st a x y (Ne.symm hab)]
      simp only [Option.map_some', ne_eq]
      intro hc
      exact hfar b hb0 hc.symm
  · rw [posOf_moveTo_other st i x y hai]
    by_cases hbi : b = i
    · subst hbi
      rw [posOf_moveTo_self]
      cases hpa : posOf st a with
      | none => exact Or.inl rfl
      | some p =>
        refine Or.inr ?_
        cases hpb : posOf st b with
        | none => simp
        | some q =>
          simp only [Option.map_some', ne_eq, Option.some.injEq]
          intro hc
          exact hfar a ha0 (hpa.trans (congrArg some hc))
    · rw [posOf_moveTo_other st i x y hbi]
      exact h a ha0 b hb0 hab

theorem WF_updUnit {st : EState} {i : Nat} (f : GameUnit → GameUnit)
    (hf : ∀ v, (f v).id = v.id) (h : WF st) : WF (updUnit st i f) := by
  intro u hu
  unfold updUnit at hu
  simp only at hu
  obtain ⟨v, hv, hform⟩ := List.mem_map.mp hu
  have : u.id = v.id := by
    by_cases hc : (v.id == i) = true <;> simp [hc] at hform <;>
      rw [← hform] <;> simp [hf]
  rw [this]
  exact h v hv

theorem WF_spawnUnit {st : EState} {t : UType} {x y : Int} {ow : Nat}
    (h : WF st) : WF (spawnUnit st t x y ow) := by
  intro u hu
  rw [spawnUnit_heap] at hu
  rw [spawnUnit_nextUnitId]
  rcases List.mem_append.mp hu with h1 | h2
  · exact Nat.lt_succ_of_lt (h u h1)
  · simp only [List.mem_singleton] at h2
    rw [h2]
    exact Nat.lt_succ_self _

theorem heapFind_spawnUnit_other {st : EState} {t : UType} {x y : Int}
    {ow : Nat} {j : Nat} (hj : j ≠ st.nextUnitId) :
    heapFind (spawnUnit st t x y ow) j = heapFind st j := by
  unfold heapFind
  rw [spawnUnit_heap, List.find?_append]
  cases hf : st.heap.find? (fun u => u.id == j) with
  | some v => rfl
  | none =>
    have hne : (st.nextUnitId == j) = false := by simp [Ne.symm hj]
    simp [List.find?, hne]

theorem heapFind_spawnUnit_self {st : EState} {t : UType} {x y : Int}
    {ow : Nat} (hW : WF st) :
    heapFind (spawnUnit st t x y ow) st.nextUnitId
      = some { id := st.nextUnitId, utype := t, owner := ow, gx := x, gy := y,
               hp := hpOf t, maxHp := hpOf t, action := .noop, target := .none,
               progress := 0, carrying := 0 } := by
  unfold heapFind
  rw [spawnUnit_heap, List.find?_append]
  have hnone : st.heap.find? (fun u => u.id == st.nextUnitId) = Option.none := by
    rw [List.find?_eq_none]
    intro v hv
    simp only [beq_iff_eq]
    exact Nat.ne_of_lt (hW v hv)
  rw [hnone]
  simp [List.find?]

theorem posOf_spawnUnit_other {st : EState} {t : UType} {x y : Int}
    {ow : Nat} {j : Nat} (hj : j ≠ st.nextUnitId) :
    posOf (spawnUnit st t x y ow) j = posOf st j := by
  unfold posOf
  rw [heapFind_spawnUnit_other hj]

theorem dp_spawnUnit {st : EState} {t : UType} {x y : Int} {ow : Nat}
    (hW : WF st) (hw : isWalkable st x y = true)
    (h : distinctPos st) : distinctPos (spawnUnit st t x y ow) := by
  have hfar := occupied_eq_false_iff.mp (isWalkable_not_occupied hw)
  have hself : posOf (spawnUnit st t x y ow) st.nextUnitId = some (x, y) := by
    unfold posOf
    rw [heapFind_spawnUnit_self hW]
    rfl
  intro i hi j hj hij
  rw [spawnUnit_live, List.mem_append, List.mem_singleton] at hi hj
  by_cases hii : i = st.nextUnitId
  · subst hii
    have hjn : j ≠ st.nextUnitId := fun hc => hij hc.symm
    have hj' : j ∈ st.live := hj.resolve_right hjn
    rw [hself, posOf_spawnUnit_other hjn]
    exact Or.inr (fun hc => hfar j hj' hc.symm)
  · have hi' : i ∈ st.live := hi.resolve_right hii
    rw [posOf_spawnUnit_other hii]
    by_cases hjj : j = st.nextUnitId
    · subst hjj
      rw [hself]
      cases hpi : posOf st i with
      | none => exact Or.inl rfl
      | some p =>
        refine Or.inr ?_
        simp only [ne_eq, Option.some.injEq]
        intro hc
        exact hfar i hi' (by rw [hpi, hc])
    · have hj' : j ∈ st.live := hj.resolve_right hjj
      rw [posOf_spawnUnit_other hjj]
      exact h i hi' j hj' hij

theorem attackOf_nonneg (t : UType) : 0 ≤ attackOf t := by
  cases t <;> norm_num [attackOf]

theorem hpOf_pos (t : UType) : 0 < hpOf t := by
  cases t <;> norm_num [hpOf]

theorem hpInv_updUnit_keep {st : EState} {i : Nat} (f : GameUnit → GameUnit)
    (hf : ∀ v, (f v).id = v.id)
    (hh : ∀ v, (f v).hp = v.hp ∧ (f v).maxHp = v.maxHp)
    (h : hpInv st) : hpInv (updUnit st i f) := by
  intro j hj
  rw [heapFind_updUnit f hf j]
  have hx := h j hj
  cases hjf : heapFind st j with
  | none => rfl
  | some v =>
    rw [hjf] at hx
    by_cases hv : (v.id == i) = true <;>
      simp only [Option.map_some', hv, if_true, if_false, Bool.false_eq_true] <;>
      simpa [hpOkB, (hh v).1, (hh v).2] using hx

theorem hpInv_removeLive {st : EState} {i : Nat}
    (h : hpInv st) : hpInv (removeLive st i) :=
  fun j hj => h j (List.mem_filter.mp hj).1

theorem hpInv_damage_live {st : EState} {tid : Nat} {t : GameUnit} {hp2 : ℚ}
    (hf : findUnit st tid = some t) (hpos : 0 < hp2) (hle : hp2 ≤ t.hp)
    (h : hpInv st) :
    hpInv (updUnit st tid (fun v => { v with hp := hp2 })) := by
  obtain ⟨hcont, hfind⟩ := findUnit_eq_some.mp hf
  have htl : tid ∈ st.live := by simpa using hcont
  have htmax : t.hp ≤ t.maxHp := by
    have hx := h tid htl
    rw [hfind] at hx
    simp only [hpOkB, Bool.and_eq_true, decide_eq_true_eq] at hx
    exact hx.2
  intro j hj
  rw [heapFind_updUnit (fun v => { v with hp := hp2 }) (fun v => rfl) j]
  have hx := h j hj
  cases hjf : heapFind st j with
  | none => rfl
  | some v =>
    rw [hjf] at hx
    by_cases hv : (v.id == tid) = true
    · have hvid : v.id = j := heapFind_id hjf
      have hjt : j = tid := by rw [← hvid]; exact beq_iff_eq.mp hv
      subst hjt
      have hvt : v = t := by
        rw [hjf] at hfind
        exact Option.some.inj hfind
      subst hvt
      simp only [Option.map_some', hv, if_true]
      simp only [hpOkB, Bool.and_eq_true, decide_eq_true_eq]
      exact ⟨hpos, le_trans hle htmax⟩
    · simp only [Option.map_some', hv, Bool.false_eq_true, if_false]
      exact hx

theorem hpInv_remove_target {st : EState} {tid : Nat} (f : GameUnit → GameUnit)
    (hf : ∀ v, (f v).id = v.id) (h : hpInv st) :
    hpInv (removeLive (updUnit st tid f) tid) := by
  intro j hj
  obtain ⟨hj1, hj2⟩ := List.mem_filter.mp hj
  have hjne : j ≠ tid := by simpa using hj2
  have : heapFind (removeLive (updUnit st tid f) tid) j
      = heapFind (updUnit st tid f) j := rfl
  rw [this, heapFind_updUnit_other f hf hjne]
  exact h j hj1

theorem hpInv_spawnUnit {st : EState} {t : UType} {x y : Int} {ow : Nat}
    (hW : WF st) (h : hpInv st) : hpInv (spawnUnit st t x y ow) := by
  intro j hj
  rw [spawnUnit_live, List.mem_append, List.mem_singleton] at hj
  by_cases hjn : j = st.nextUnitId
  · subst hjn
    rw [heapFind_spawnUnit_self hW]
    simp only [hpOkB, Bool.and_eq_true, decide_eq_true_eq]
    exact ⟨hpOf_pos t, le_refl _⟩
  · rw [heapFind_spawnUnit_other hjn]
    exact h j (hj.resolve_right hjn)

/-! ### Per-step preservation of the occupancy and health invariants -/

theorem P_ite (P : EState → Prop) {c : Prop} [Decidable c] {s1 s2 : EState}
    (h1 : c → P s1) (h2 : ¬c → P s2) : P (if c then s1 else s2) := by
  by_cases h : c
  · rw [if_pos h]
    exact h1 h
  · rw [if_neg h]
    exact h2 h

theorem inv2_updKeep {st : EState} {i : Nat} {f : GameUnit → GameUnit}
    (hf : ∀ v, (f v).id = v.id)
    (hpos : ∀ v, (f v).gx = v.gx ∧ (f v).gy = v.gy)
    (h : WF st ∧ distinctPos st) :
    WF (updUnit st i f) ∧ distinctPos (updUnit st i f) :=
  ⟨WF_updUnit f hf h.1, dp_updUnit_keep f hf hpos h.2⟩

theorem inv2_clearAct {st : EState} {i : Nat} (h : WF st ∧ distinctPos st) :
    WF (clearAct st i) ∧ distinctPos (clearAct st i) :=
  inv2_updKeep (fun v => rfl) (fun v => ⟨rfl, rfl⟩) h

theorem inv2_moveTo {st : EState} {i : Nat} {x y : Int}
    (hw : isWalkable st x y = true) (h : WF st ∧ distinctPos st) :
    WF (moveTo st i x y) ∧ distinctPos (moveTo st i x y) :=
  ⟨WF_updUnit (fun u => { u with gx := x, gy := y }) (fun v => rfl) h.1,
   dp_moveTo (isWalkable_not_occupied hw) h.2⟩

theorem inv2_setProgress {st : EState} {i : Nat} {p : Nat}
    (h : WF st ∧ distinctPos st) :
    WF (updUnit st i (fun v => { v with progress := p }))
      ∧ distinctPos (updUnit st i (fun v => { v with progress := p })) :=
  inv2_updKeep (fun v => rfl) (fun v => ⟨rfl, rfl⟩) h

theorem inv2_gain {st : EState} {i : Nat} {c : Nat}
    (h : WF st ∧ distinctPos st) :
    WF (updUnit st i (fun v => { v with progress := 0, carrying := c }))
      ∧ distinctPos (updUnit st i (fun v => { v with progress := 0, carrying := c })) :=
  inv2_updKeep (fun v => rfl) (fun v => ⟨rfl, rfl⟩) h

theorem inv2_setRet {st : EState} {i : Nat} (h : WF st ∧ distinctPos st) :
    WF (updUnit st i (fun v => { v with action := .ret }))
      ∧ distinctPos (updUnit st i (fun v => { v with action := .ret })) :=
  inv2_updKeep (fun v => rfl) (fun v => ⟨rfl, rfl⟩) h

theorem inv2_setTgtCell {st : EState} {i : Nat} {bx by' : Int}
    (h : WF st ∧ distinctPos st) :
    WF (updUnit st i (fun v => { v with target := .cell bx by' }))
      ∧ distinctPos (updUnit st i (fun v => { v with target := .cell bx by' })) :=
  inv2_updKeep (fun v => rfl) (fun v => ⟨rfl, rfl⟩) h

theorem inv2_deposit {st : EState} {i : Nat} (h : WF st ∧ distinctPos st) :
    WF (updUnit st i (fun v => { v with carrying := 0, action := .noop, target := .none }))
      ∧ distinctPos (updUnit st i
          (fun v => { v with carrying := 0, action := .noop, target := .none })) :=
  inv2_updKeep (fun v => rfl) (fun v => ⟨rfl, rfl⟩) h

theorem inv2_setHp {st : EState} {i : Nat} {q : ℚ} (h : WF st ∧ distinctPos st) :
    WF (updUnit st i (fun v => { v with hp := q }))
      ∧ distinctPos (updUnit st i (fun v => { v with hp := q })) :=
  inv2_updKeep (fun v => rfl) (fun v => ⟨rfl, rfl⟩) h

theorem inv2_removeLive {st : EState} {i : Nat} (h : WF st ∧ distinctPos st) :
    WF (removeLive st i) ∧ distinctPos (removeLive st i) :=
  ⟨h.1, dp_removeLive h.2⟩

theorem inv2_aiAttack {st : EState} {i tid : Nat} (h : WF st ∧ distinctPos st) :
    WF (updUnit st i (fun v => { v with action := .attack, target := .unit tid }))
      ∧ distinctPos (updUnit st i
          (fun v => { v with action := .attack, target := .unit tid })) :=
  inv2_updKeep (fun v => rfl) (fun v => ⟨rfl, rfl⟩) h

theorem inv2_aiMove {st : EState} {i : Nat} {cx cy : Int}
    (h : WF st ∧ distinctPos st) :
    WF (updUnit st i (fun v => { v with action := .move, target := .cell cx cy }))
      ∧ distinctPos (updUnit st i
          (fun v => { v with action := .move, target := .cell cx cy })) :=
  inv2_updKeep (fun v => rfl) (fun v => ⟨rfl, rfl⟩) h

theorem stepUnit_WF_DP (st : EState) (uid : Nat)
    (h : WF st ∧ distinctPos st) :
    WF (stepUnit st uid) ∧ distinctPos (stepUnit st uid) := by
  cases hu : heapFind st uid with
  | none =>
    simp only [stepUnit, hu]
    exact h
  | some u =>
    cases hact : u.action with
    | noop =>
      cases htg : u.target <;> simp only [stepUnit, hu, hact, htg] <;> exact h
    | move =>
      cases htg : u.target with
      | cell tx ty =>
        simp only [stepUnit, hu, hact, htg]
        refine P_ite (fun s => WF s ∧ distinctPos s)
          (fun _ => inv2_clearAct h) (fun _ => ?_)
        refine P_ite (fun s => WF s ∧ distinctPos s) (fun _ => ?_) (fun _ => ?_)
        · refine inv2_clearAct ?_
          exact P_ite (fun s => WF s ∧ distinctPos s)
            (fun hw => inv2_moveTo hw h) (fun _ => h)
        · exact P_ite (fun s => WF s ∧ distinctPos s)
            (fun hw => inv2_moveTo hw h) (fun _ => h)
      | none => simp only [stepUnit, hu, hact, htg]; exact h
      | unit t => simp only [stepUnit, hu, hact, htg]; exact h
    | harvest =>
      have hcore : ∀ tg : Tgt, u.target = tg →
          WF (stepUnit st uid) ∧ distinctPos (stepUnit st uid) := by
        intro tg htg
        cases tg <;> simp only [stepUnit, hu, hact, htg] <;>
        · refine P_ite (fun s => WF s ∧ distinctPos s) (fun _ => ?_)
            (fun _ => inv2_setProgress h)
          refine P_ite (fun s => WF s ∧ distinctPos s) (fun _ => ?_)
            (fun _ => inv2_gain h)
          split
          · exact inv2_setTgtCell (inv2_setRet (inv2_gain h))
          · exact inv2_setRet (inv2_gain h)
      exact hcore u.target rfl
    | ret =>
      cases htg : u.target with
      | cell tx ty =>
        simp only [stepUnit, hu, hact, htg]
        refine P_ite (fun s => WF s ∧ distinctPos s)
          (fun _ => inv2_deposit h) (fun _ => ?_)
        exact P_ite (fun s => WF s ∧ distinctPos s)
          (fun hw => inv2_moveTo hw h) (fun _ => h)
      | none => simp only [stepUnit, hu, hact, htg]; exact h
      | unit t => simp only [stepUnit, hu, hact, htg]; exact h
    | attack =>
      cases htg : u.target with
      | cell tx ty =>
        simp only [stepUnit, hu, hact, htg]
        exact inv2_clearAct h
      | none => simp only [stepUnit, hu, hact, htg]; exact h
      | unit tid =>
        simp only [stepUnit, hu, hact, htg]
        cases hfu : findUnit st tid with
        | none => exact inv2_clearAct h
        | some t =>
          refine P_ite (fun s => WF s ∧ distinctPos s)
            (fun _ => inv2_clearAct h) (fun _ => ?_)
          refine P_ite (fun s => WF s ∧ distinctPos s) (fun _ => ?_) (fun _ => ?_)
          · refine P_ite (fun s => WF s ∧ distinctPos s) (fun _ => ?_)
              (fun _ => inv2_setHp h)
            exact inv2_clearAct (inv2_removeLive (inv2_setHp h))
          · exact P_ite (fun s => WF s ∧ distinctPos s)
              (fun hw => inv2_moveTo hw h) (fun _ => h)

theorem inv3_updKeep {st : EState} {i : Nat} {f : GameUnit → GameUnit}
    (hf : ∀ v, (f v).id = v.id)
    (hh : ∀ v, (f v).hp = v.hp ∧ (f v).maxHp = v.maxHp)
    (h : WF st ∧ hpInv st) :
    WF (updUnit st i f) ∧ hpInv (updUnit st i f) :=
  ⟨WF_updUnit f hf h.1, hpInv_updUnit_keep f hf hh h.2⟩

theorem inv3_clearAct {st : EState} {i : Nat} (h : WF st ∧ hpInv st) :
    WF (clearAct st i) ∧ hpInv (clearAct st i) :=
  inv3_updKeep (fun v => rfl) (fun v => ⟨rfl, rfl⟩) h

theorem inv3_moveTo {st : EState} {i : Nat} {x y : Int}
    (h : WF st ∧ hpInv st) :
    WF (moveTo st i x y) ∧ hpInv (moveTo st i x y) :=
  inv3_updKeep (fun v => rfl) (fun v => ⟨rfl, rfl⟩) h

theorem inv3_setProgress {st : EState} {i : Nat} {p : Nat}
    (h : WF st ∧ hpInv st) :
    WF (updUnit st i (fun v => { v with progress := p }))
      ∧ hpInv (updUnit st i (fun v => { v with progress := p })) :=
  inv3_updKeep (fun v => rfl) (fun v => ⟨rfl, rfl⟩) h

theorem inv3_gain {st : EState} {i : Nat} {c : Nat}
    (h : WF st ∧ hpInv st) :
    WF (updUnit st i (fun v => { v with progress := 0, carrying := c }))
      ∧ hpInv (updUnit st i (fun v => { v with progress := 0, carrying := c })) :=
  inv3_updKeep (fun v => rfl) (fun v => ⟨rfl, rfl⟩) h

theorem inv3_setRet {st : EState} {i : Nat} (h : WF st ∧ hpInv st) :
    WF (updUnit st i (fun v => { v with action := .ret }))
      ∧ hpInv (updUnit st i (fun v => { v with action := .ret })) :=
  inv3_updKeep (fun v => rfl) (fun v => ⟨rfl, rfl⟩) h

theorem inv3_setTgtCell {st : EState} {i : Nat} {bx by' : Int}
    (h : WF st ∧ hpInv st) :
    WF (updUnit st i (fun v => { v with target := .cell bx by' }))
      ∧ hpInv (updUnit st i (fun v => { v with target := .cell bx by' })) :=
  inv3_updKeep (fun v => rfl) (fun v => ⟨rfl, rfl⟩) h

theorem inv3_deposit {st : EState} {i : Nat} (h : WF st ∧ hpInv st) :
    WF (updUnit st i (fun v => { v with carrying := 0, action := .noop, target := .none }))
      ∧ hpInv (updUnit st i
          (fun v => { v with carrying := 0, action := .noop, target := .none })) :=
  inv3_updKeep (fun v => rfl) (fun v => ⟨rfl, rfl⟩) h

theorem inv3_aiAttack {st : EState} {i tid : Nat} (h : WF st ∧ hpInv st) :
    WF (updUnit st i (fun v => { v with action := .attack, target := .unit tid }))
      ∧ hpInv (updUnit st i
          (fun v => { v with action := .attack, target := .unit tid })) :=
  inv3_updKeep (fun v => rfl) (fun v => ⟨rfl, rfl⟩) h

theorem inv3_aiMove {st : EState} {i : Nat} {cx cy : Int}
    (h : WF st ∧ hpInv st) :
    WF (updUnit st i (fun v => { v with action := .move, target := .cell cx cy }))
      ∧ hpInv (updUnit st i
          (fun v => { v with action := .move, target := .cell cx cy })) :=
  inv3_updKeep (fun v => rfl) (fun v => ⟨rfl, rfl⟩) h

theorem stepUnit_WF_HP (st : EState) (uid : Nat)
    (h : WF st ∧ hpInv st) :
    WF (stepUnit st uid) ∧ hpInv (stepUnit st uid) := by
  cases hu : heapFind st uid with
  | none =>
    simp only [stepUnit, hu]
    exact h
  | some u =>
    cases hact : u.action with
    | noop =>
      cases htg : u.target <;> simp only [stepUnit, hu, hact, htg] <;> exact h
    | move =>
      cases htg : u.target with
      | cell tx ty =>
        simp only [stepUnit, hu, hact, htg]
        refine P_ite (fun s => WF s ∧ hpInv s)
          (fun _ => inv3_clearAct h) (fun _ => ?_)
        refine P_ite (fun s => WF s ∧ hpInv s) (fun _ => ?_) (fun _ => ?_)
        · refine inv3_clearAct ?_
          exact P_ite (fun s => WF s ∧ hpInv s)
            (fun _ => inv3_moveTo h) (fun _ => h)
        · exact P_ite (fun s => WF s ∧ hpInv s)
            (fun _ => inv3_moveTo h) (fun _ => h)
      | none => simp only [stepUnit, hu, hact, htg]; exact h
      | unit t => simp only [stepUnit, hu, hact, htg]; exact h
    | harvest =>
      have hcore : ∀ tg : Tgt, u.target = tg →
          WF (stepUnit st uid) ∧ hpInv (stepUnit st uid) := by
        intro tg htg
        cases tg <;> simp only [stepUnit, hu, hact, htg] <;>
        · refine P_ite (fun s => WF s ∧ hpInv s) (fun _ => ?_)
            (fun _ => inv3_setProgress h)
          refine P_ite (fun s => WF s ∧ hpInv s) (fun _ => ?_)
            (fun _ => inv3_gain h)
          split
          · exact inv3_setTgtCell (inv3_setRet (inv3_gain h))
          · exact inv3_setRet (inv3_gain h)
      exact hcore u.target rfl
    | ret =>
      cases htg : u.target with
      | cell tx ty =>
        simp only [stepUnit, hu, hact, htg]
        refine P_ite (fun s => WF s ∧ hpInv s)
          (fun _ => inv3_deposit h) (fun _ => ?_)
        exact P_ite (fun s => WF s ∧ hpInv s)
          (fun _ => inv3_moveTo h) (fun _ => h)
      | none => simp only [stepUnit, hu, hact, htg]; exact h
      | unit t => simp only [stepUnit, hu, hact, htg]; exact h
    | attack =>
      cases htg : u.target with
      | cell tx ty =>
        simp only [stepUnit, hu, hact, htg]
        exact inv3_clearAct h
      | none => simp only [stepUnit, hu, hact, htg]; exact h
      | unit tid =>
        simp only [stepUnit, hu, hact, htg]
        cases hfu : findUnit st tid with
        | none => exact inv3_clearAct h
        | some t =>
          refine P_ite (fun s => WF s ∧ hpInv s)
            (fun _ => inv3_clearAct h) (fun hthp => ?_)
          refine P_ite (fun s => WF s ∧ hpInv s) (fun _ => ?_) (fun _ => ?_)
          · refine P_ite (fun s => WF s ∧ hpInv s) (fun _ => ?_) (fun hnk => ?_)
            · refine inv3_clearAct ⟨?_, ?_⟩
              · exact WF_updUnit
                  (fun v => { v with hp := t.hp - attackOf u.utype * (1/5) })
                  (fun v => rfl) h.1
              · exact hpInv_remove_target
                  (fun v => { v with hp := t.hp - attackOf u.utype * (1/5) })
                  (fun v => rfl) h.2
            · refine ⟨WF_updUnit (fun v => { v with hp := t.hp - attackOf u.utype * (1/5) })
                  (fun v => rfl) h.1, ?_⟩
              refine hpInv_damage_live hfu (not_le.mp hnk) ?_ h.2
              have hk := attackOf_nonneg u.utype
              nlinarith
          · exact P_ite (fun s => WF s ∧ hpInv s)
              (fun _ => inv3_moveTo h) (fun _ => h)

/-! ### Tick-level preservation -/

theorem foldl_pres (P : EState → Prop) (f : EState → Nat → EState)
    (hstep : ∀ st a, P st → P (f st a)) :
    ∀ (l : List Nat) (st : EState), P st → P (l.foldl f st) := by
  intro l
  induction l with
  | nil => intro st h; exact h
  | cons a l ih => intro st h; exact ih _ (hstep st a h)

theorem aiStep_WF_DP (rng : Nat → ℚ) (st : EState) (uid : Nat)
    (h : WF st ∧ distinctPos st) :
    WF (aiStep rng st uid) ∧ distinctPos (aiStep rng st uid) := by
  cases hu : heapFind st uid with
  | none => simp only [aiStep, hu]; exact h
  | some u =>
    simp only [aiStep, hu]
    refine P_ite (fun s => WF s ∧ distinctPos s) (fun _ => ?_) (fun _ => h)
    cases hn : nearestP1 st u with
    | none =>
      refine P_ite (fun s => WF s ∧ distinctPos s) (fun _ => ?_) (fun _ => h)
      exact inv2_aiMove h
    | some pr =>
      obtain ⟨tid, d⟩ := pr
      refine P_ite (fun s => WF s ∧ distinctPos s)
        (fun _ => inv2_aiAttack h) (fun _ => ?_)
      refine P_ite (fun s => WF s ∧ distinctPos s) (fun _ => ?_) (fun _ => h)
      exact inv2_aiMove h

theorem aiStep_WF_HP (rng : Nat → ℚ) (st : EState) (uid : Nat)
    (h : WF st ∧ hpInv st) :
    WF (aiStep rng st uid) ∧ hpInv (aiStep rng st uid) := by
  cases hu : heapFind st uid with
  | none => simp only [aiStep, hu]; exact h
  | some u =>
    simp only [aiStep, hu]
    refine P_ite (fun s => WF s ∧ hpInv s) (fun _ => ?_) (fun _ => h)
    cases hn : nearestP1 st u with
    | none =>
      refine P_ite (fun s => WF s ∧ hpInv s) (fun _ => ?_) (fun _ => h)
      exact inv3_aiMove h
    | some pr =>
      obtain ⟨tid, d⟩ := pr
      refine P_ite (fun s => WF s ∧ hpInv s)
        (fun _ => inv3_aiAttack h) (fun _ => ?_)
      refine P_ite (fun s => WF s ∧ hpInv s) (fun _ => ?_) (fun _ => h)
      exact inv3_aiMove h

theorem finishOrder_WF_DP (st : EState) (o : Order)
    (h : WF st ∧ distinctPos st) :
    WF (finishOrder st o) ∧ distinctPos (finishOrder st o) := by
  unfold finishOrder
  cases hsp : (spotsOf o.gx o.gy).find? (fun p => isWalkable st p.1 p.2) with
  | none => exact h
  | some p =>
    have hw : isWalkable st p.1 p.2 = true := by
      have := List.find?_some hsp
      simpa using this
    have h1 : WF (spawnUnit st o.unitType p.1 p.2 1)
        ∧ distinctPos (spawnUnit st o.unitType p.1 p.2 1) :=
      ⟨WF_spawnUnit h.1, dp_spawnUnit h.1 hw h.2⟩
    exact P_ite (fun s => WF s ∧ distinctPos s) (fun _ => h1) (fun _ => h1)

theorem finishOrder_WF_HP (st : EState) (o : Order)
    (h : WF st ∧ hpInv st) :
    WF (finishOrder st o) ∧ hpInv (finishOrder st o) := by
  unfold finishOrder
  cases hsp : (spotsOf o.gx o.gy).find? (fun p => isWalkable st p.1 p.2) with
  | none => exact h
  | some p =>
    have h1 : WF (spawnUnit st o.unitType p.1 p.2 1)
        ∧ hpInv (spawnUnit st o.unitType p.1 p.2 1) :=
      ⟨WF_spawnUnit h.1, hpInv_spawnUnit h.1 h.2⟩
    exact P_ite (fun s => WF s ∧ hpInv s) (fun _ => h1) (fun _ => h1)

theorem prodGo_WF_DP :
    ∀ (q : List Order) (st : EState), WF st ∧ distinctPos st →
      WF (prodGo q st).2 ∧ distinctPos (prodGo q st).2 := by
  intro q
  induction q with
  | nil => intro st h; exact h
  | cons o rest ih =>
    intro st h
    simp only [prodGo]
    split
    · exact finishOrder_WF_DP _ _ (ih st h)
    · exact ih st h

theorem prodGo_WF_HP :
    ∀ (q : List Order) (st : EState), WF st ∧ hpInv st →
      WF (prodGo q st).2 ∧ hpInv (prodGo q st).2 := by
  intro q
  induction q with
  | nil => intro st h; exact h
  | cons o rest ih =>
    intro st h
    simp only [prodGo]
    split
    · exact finishOrder_WF_HP _ _ (ih st h)
    · exact ih st h

theorem gameTick_WF_DP (rng : Nat → ℚ) (st : EState)
    (h : WF st ∧ distinctPos st) :
    WF (gameTick rng st) ∧ distinctPos (gameTick rng st) := by
  unfold gameTick
  have h1 : WF (processActions (bumpCycle st))
      ∧ distinctPos (processActions (bumpCycle st)) :=
    foldl_pres (fun s => WF s ∧ distinctPos s) stepUnit
      (fun s a hs => stepUnit_WF_DP s a hs) _ _ h
  have h2 := processAI_pres_of rng _ h1
  have h3 : WF (processProduction (processAI rng (processActions (bumpCycle st))))
      ∧ distinctPos (processProduction (processAI rng (processActions (bumpCycle st)))) := by
    unfold processProduction
    exact prodGo_WF_DP _ _ h2
  unfold updateFog
  exact P_ite (fun s => WF s ∧ distinctPos s) (fun _ => h3) (fun _ => h3)
where
  processAI_pres_of (rng : Nat → ℚ) (s : EState)
      (hs : WF s ∧ distinctPos s) :
      WF (processAI rng s) ∧ distinctPos (processAI rng s) := by
    unfold processAI
    split
    · exact hs
    · exact foldl_pres (fun s => WF s ∧ distinctPos s) (aiStep rng)
        (fun s' a hs' => aiStep_WF_DP rng s' a hs') _ _ hs

theorem gameTick_WF_HP (rng : Nat → ℚ) (st : EState)
    (h : WF st ∧ hpInv st) :
    WF (gameTick rng st) ∧ hpInv (gameTick rng st) := by
  unfold gameTick
  have h1 : WF (processActions (bumpCycle st))
      ∧ hpInv (processActions (bumpCycle st)) :=
    foldl_pres (fun s => WF s ∧ hpInv s) stepUnit
      (fun s a hs => stepUnit_WF_HP s a hs) _ _ h
  have h2 : WF (processAI rng (processActions (bumpCycle st)))
      ∧ hpInv (processAI rng (processActions (bumpCycle st))) := by
    unfold processAI
    split
    · exact h1
    · exact foldl_pres (fun s => WF s ∧ hpInv s) (aiStep rng)
        (fun s' a hs' => aiStep_WF_HP rng s' a hs') _ _ h1
  have h3 : WF (processProduction (processAI rng (processActions (bumpCycle st))))
      ∧ hpInv (processProduction (processAI rng (processActions (bumpCycle st)))) := by
    unfold processProduction
    exact prodGo_WF_HP _ _ h2
  unfold updateFog
  exact P_ite (fun s => WF s ∧ hpInv s) (fun _ => h3) (fun _ => h3)

/-- **C2.** Occupancy invariant: if no two live units share a grid cell
before a tick, the same holds after every single unit's resolution step,
after the whole action-resolution pass, and after the full tick
(actions, opponent policy, production spawning and fog recompute), for
every random oracle the opponent policy may draw from. -/
theorem C2_occupancy :
    ∀ (rng : Nat → ℚ) (st : EState), WF st → distinctPos st →
      (∀ uid, distinctPos (stepUnit st uid)) ∧
      distinctPos (processActions st) ∧
      distinctPos (gameTick rng st) := by
  intro rng st hW hD
  refine ⟨fun uid => (stepUnit_WF_DP st uid ⟨hW, hD⟩).2, ?_, ?_⟩
  · exact (foldl_pres (fun s => WF s ∧ distinctPos s) stepUnit
      (fun s a hs => stepUnit_WF_DP s a hs) _ _ ⟨hW, hD⟩).2
  · exact (gameTick_WF_DP rng st ⟨hW, hD⟩).2

/-- Witness for C2 at the concrete two-unit combat state. -/
theorem C2_occupancy_witness :
    (∀ uid, distinctPos (stepUnit combatSt uid)) ∧
    distinctPos (processActions combatSt) ∧
    distinctPos (gameTick rng1 combatSt) :=
  C2_occupancy rng1 combatSt (by unfold WF; decide) (by unfold distinctPos; decide)

/-- **C3.** Health invariant: if every registry unit has
`0 < hp ≤ maxHp` before a tick, the same holds after every single
resolution step (a unit whose hp is driven ≤ 0 is removed in that same
step), after the whole pass, and after the full tick; consequently a
registry query after resolution never returns a unit with hp ≤ 0. -/
theorem C3_health :
    ∀ (rng : Nat → ℚ) (st : EState), WF st → hpInv st →
      (∀ uid, hpInv (stepUnit st uid)) ∧
      hpInv (processActions st) ∧
      hpInv (gameTick rng st) ∧
      (∀ tid u, findUnit (processActions st) tid = some u →
        0 < u.hp ∧ u.hp ≤ u.maxHp) := by
  intro rng st hW hH
  have hpass : WF (processActions st) ∧ hpInv (processActions st) :=
    foldl_pres (fun s => WF s ∧ hpInv s) stepUnit
      (fun s a hs => stepUnit_WF_HP s a hs) _ _ ⟨hW, hH⟩
  refine ⟨fun uid => (stepUnit_WF_HP st uid ⟨hW, hH⟩).2, hpass.2,
    (gameTick_WF_HP rng st ⟨hW, hH⟩).2, ?_⟩
  intro tid u hfu
  obtain ⟨hcont, hfind⟩ := findUnit_eq_some.mp hfu
  have hmem : tid ∈ (processActions st).live := by simpa using hcont
  have hok := hpass.2 tid hmem
  rw [hfind] at hok
  simp only [hpOkB, Bool.and_eq_true, decide_eq_true_eq] at hok
  exact hok

/-- Witness for C3 at the concrete two-unit combat state. -/
theorem C3_health_witness :
    (∀ uid, hpInv (stepUnit combatSt uid)) ∧
    hpInv (processActions combatSt) ∧
    hpInv (gameTick rng1 combatSt) ∧
    (∀ tid u, findUnit (processActions combatSt) tid = some u →
      0 < u.hp ∧ u.hp ≤ u.maxHp) :=
  C3_health rng1 combatSt (by unfold WF; decide) (by unfold hpInv; decide)

/-! ### Monotonicity of the reward accumulators -/

theorem rewardsLE_refl (r : Rewards) : rewardsLE r r :=
  ⟨le_refl _, le_refl _, le_refl _, le_refl _, le_refl _, le_refl _⟩

theorem rewardsLE_trans {a b c : Rewards}
    (h1 : rewardsLE a b) (h2 : rewardsLE b c) : rewardsLE a c :=
  ⟨le_trans h1.1 h2.1, le_trans h1.2.1 h2.2.1, le_trans h1.2.2.1 h2.2.2.1,
   le_trans h1.2.2.2.1 h2.2.2.2.1, le_trans h1.2.2.2.2.1 h2.2.2.2.2.1,
   le_trans h1.2.2.2.2.2 h2.2.2.2.2.2⟩

theorem rLE_resources {r : Rewards} {q : ℚ} (h : 0 ≤ q) :
    rewardsLE r { r with resources := r.resources + q } :=
  ⟨le_refl _, by change r.resources ≤ r.resources + q; linarith,
   le_refl _, le_refl _, le_refl _, le_refl _⟩

theorem rLE_attack {r : Rewards} {q : ℚ} (h : 0 ≤ q) :
    rewardsLE r { r with attack := r.attack + q } :=
  ⟨le_refl _, le_refl _, le_refl _, le_refl _,
   by change r.attack ≤ r.attack + q; linarith, le_refl _⟩

theorem rLE_attack_combat {r : Rewards} {q1 q2 : ℚ} (h1 : 0 ≤ q1) (h2 : 0 ≤ q2) :
    rewardsLE r { r with attack := r.attack + q1, combat := r.combat + q2 } :=
  ⟨le_refl _, le_refl _, le_refl _, le_refl _,
   by change r.attack ≤ r.attack + q1; linarith,
   by change r.combat ≤ r.combat + q2; linarith⟩

theorem rLE_workers {r : Rewards} {q : ℚ} (h : 0 ≤ q) :
    rewardsLE r { r with workers := r.workers + q } :=
  ⟨le_refl _, le_refl _, by change r.workers ≤ r.workers + q; linarith,
   le_refl _, le_refl _, le_refl _⟩

theorem rLE_combat {r : Rewards} {q : ℚ} (h : 0 ≤ q) :
    rewardsLE r { r with combat := r.combat + q } :=
  ⟨le_refl _, le_refl _, le_refl _, le_refl _, le_refl _,
   by change r.combat ≤ r.combat + q; linarith⟩

theorem stepUnit_rewards (st : EState) (uid : Nat) :
    rewardsLE st.rewards (stepUnit st uid).rewards := by
  cases hu : heapFind st uid with
  | none => simp only [stepUnit, hu]; exact rewardsLE_refl _
  | some u =>
    cases hact : u.action with
    | noop =>
      cases htg : u.target <;> simp only [stepUnit, hu, hact, htg] <;>
        exact rewardsLE_refl _
    | move =>
      cases htg : u.target with
      | cell tx ty =>
        simp only [stepUnit, hu, hact, htg]
        refine P_ite (fun s => rewardsLE st.rewards s.rewards)
          (fun _ => rewardsLE_refl _) (fun _ => ?_)
        refine P_ite (fun s => rewardsLE st.rewards s.rewards)
          (fun _ => ?_) (fun _ => ?_) <;>
          exact P_ite (fun s => rewardsLE st.rewards s.rewards)
            (fun _ => rewardsLE_refl _) (fun _ => rewardsLE_refl _)
      | none => simp only [stepUnit, hu, hact, htg]; exact rewardsLE_refl _
      | unit t => simp only [stepUnit, hu, hact, htg]; exact rewardsLE_refl _
    | harvest =>
      have hcore : ∀ tg : Tgt, u.target = tg →
          rewardsLE st.rewards (stepUnit st uid).rewards := by
        intro tg htg
        cases tg <;> simp only [stepUnit, hu, hact, htg] <;>
        · refine P_ite (fun s => rewardsLE st.rewards s.rewards) (fun _ => ?_)
            (fun _ => rewardsLE_refl _)
          refine P_ite (fun s => rewardsLE st.rewards s.rewards) (fun _ => ?_)
            (fun _ => rewardsLE_refl _)
          split
          · exact rewardsLE_refl _
          · exact rewardsLE_refl _
      exact hcore u.target rfl
    | ret =>
      cases htg : u.target with
      | cell tx ty =>
        simp only [stepUnit, hu, hact, htg]
        refine P_ite (fun s => rewardsLE st.rewards s.rewards)
          (fun _ => ?_) (fun _ => ?_)
        · exact rLE_resources (by positivity)
        · exact P_ite (fun s => rewardsLE st.rewards s.rewards)
            (fun _ => rewardsLE_refl _) (fun _ => rewardsLE_refl _)
      | none => simp only [stepUnit, hu, hact, htg]; exact rewardsLE_refl _
      | unit t => simp only [stepUnit, hu, hact, htg]; exact rewardsLE_refl _
    | attack =>
      cases htg : u.target with
      | cell tx ty =>
        simp only [stepUnit, hu, hact, htg]
        exact rewardsLE_refl _
      | none => simp only [stepUnit, hu, hact, htg]; exact rewardsLE_refl _
      | unit tid =>
        simp only [stepUnit, hu, hact, htg]
        cases hfu : findUnit st tid with
        | none => exact rewardsLE_refl _
        | some t =>
          refine P_ite (fun s => rewardsLE st.rewards s.rewards)
            (fun _ => rewardsLE_refl _) (fun _ => ?_)
          refine P_ite (fun s => rewardsLE st.rewards s.rewards)
            (fun _ => ?_) (fun _ => ?_)
          · refine P_ite (fun s => rewardsLE st.rewards s.rewards)
              (fun _ => ?_) (fun _ => ?_)
            · exact rLE_attack_combat (by norm_num) (by norm_num)
            · exact rLE_attack (by norm_num)
          · exact P_ite (fun s => rewardsLE st.rewards s.rewards)
              (fun _ => rewardsLE_refl _) (fun _ => rewardsLE_refl _)

theorem aiStep_rewards (rng : Nat → ℚ) (st : EState) (uid : Nat) :
    rewardsLE st.rewards (aiStep rng st uid).rewards := by
  cases hu : heapFind st uid with
  | none => simp only [aiStep, hu]; exact rewardsLE_refl _
  | some u =>
    simp only [aiStep, hu]
    refine P_ite (fun s => rewardsLE st.rewards s.rewards)
      (fun _ => ?_) (fun _ => rewardsLE_refl _)
    cases hn : nearestP1 st u with
    | none =>
      exact P_ite (fun s => rewardsLE st.rewards s.rewards)
        (fun _ => rewardsLE_refl _) (fun _ => rewardsLE_refl _)
    | some pr =>
      obtain ⟨tid, d⟩ := pr
      refine P_ite (fun s => rewardsLE st.rewards s.rewards)
        (fun _ => rewardsLE_refl _) (fun _ => ?_)
      exact P_ite (fun s => rewardsLE st.rewards s.rewards)
        (fun _ => rewardsLE_refl _) (fun _ => rewardsLE_refl _)

theorem foldl_rewards (f : EState → Nat → EState)
    (hstep : ∀ st a, rewardsLE st.rewards (f st a).rewards) :
    ∀ (l : List Nat) (st : EState),
      rewardsLE st.rewards ((l.foldl f st)).rewards := by
  intro l
  induction l with
  | nil => intro st; exact rewardsLE_refl _
  | cons a l ih =>
    intro st
    exact rewardsLE_trans (hstep st a) (ih (f st a))

theorem finishOrder_rewards (st : EState) (o : Order) :
    rewardsLE st.rewards (finishOrder st o).rewards := by
  unfold finishOrder
  cases hsp : (spotsOf o.gx o.gy).find? (fun p => isWalkable st p.1 p.2) with
  | none => exact rewardsLE_refl _
  | some p =>
    refine P_ite (fun s => rewardsLE st.rewards s.rewards)
      (fun _ => ?_) (fun _ => ?_)
    · exact rLE_workers (by norm_num)
    · exact rLE_combat (by norm_num)

theorem prodGo_rewards :
    ∀ (q : List Order) (st : EState),
      rewardsLE st.rewards (prodGo q st).2.rewards := by
  intro q
  induction q with
  | nil => intro st; exact rewardsLE_refl _
  | cons o rest ih =>
    intro st
    simp only [prodGo]
    split
    · exact rewardsLE_trans (ih st) (finishOrder_rewards _ _)
    · exact ih st

/-- **C10.** Each of the six reward accumulators (win/loss, resources,
workers, buildings, attack, combat) is monotonically non-decreasing
across every single resolution step and across every full tick, for any
state and any random oracle: no engine operation ever decrements any of
them. -/
theorem C10_rewards_monotone :
    ∀ (rng : Nat → ℚ) (st : EState),
      rewardsLE st.rewards (gameTick rng st).rewards ∧
      (∀ uid, rewardsLE st.rewards (stepUnit st uid).rewards) := by
  intro rng st
  constructor
  · unfold gameTick
    have h1 : rewardsLE st.rewards (processActions (bumpCycle st)).rewards :=
      foldl_rewards stepUnit stepUnit_rewards _ _
    have h2 : rewardsLE st.rewards
        (processAI rng (processActions (bumpCycle st))).rewards := by
      unfold processAI
      split
      · exact h1
      · exact rewardsLE_trans h1 (foldl_rewards (aiStep rng) (aiStep_rewards rng) _ _)
    have h3 : rewardsLE st.rewards
        (processProduction (processAI rng (processActions (bumpCycle st)))).rewards := by
      unfold processProduction
      exact rewardsLE_trans h2 (prodGo_rewards _ _)
    unfold updateFog
    exact P_ite (fun s => rewardsLE st.rewards s.rewards)
      (fun _ => h3) (fun _ => h3)
  · exact stepUnit_rewards st

/-! ### Fog recompute -/

theorem getD_map_range {α : Type} (g : Nat → α) (d : α) {n : Nat}
    (hn : n < 16) : ((List.range 16).map g).getD n d = g n := by
  rw [List.getD_eq_getElem?_getD, List.getElem?_map, List.getElem?_range hn]
  rfl

theorem getD_replicate16 {α : Type} (a : α) (d : α) {n : Nat} (hn : n < 16) :
    (List.replicate 16 a).getD n d = a := by
  rw [List.getD_eq_getElem?_getD, List.getElem?_replicate]
  simp [hn]

theorem cellAt_build (f : Nat → Nat → Nat) {x y : Int}
    (hx0 : 0 ≤ x) (hx1 : x < 16) (hy0 : 0 ≤ y) (hy1 : y < 16) :
    cellAt ((List.range 16).map (fun j => (List.range 16).map (fun i => f j i)))
      x y = f y.toNat x.toNat := by
  unfold cellAt
  have hyn : y.toNat < 16 := by omega
  have hxn : x.toNat < 16 := by omega
  rw [getD_map_range _ _ hyn, getD_map_range _ _ hxn]

theorem seenByP1_exists {st : EState} {x y : Int}
    (h : seenByP1 st x y = true) :
    ∃ i ∈ st.live, ∃ u, heapFind st i = some u ∧ u.owner = 1 ∧
      (x - u.gx) * (x - u.gx) + (y - u.gy) * (y - u.gy) ≤ 16 := by
  unfold seenByP1 at h
  obtain ⟨i, hi, hp⟩ := List.any_eq_true.mp h
  refine ⟨i, hi, ?_⟩
  cases hfi : heapFind st i with
  | none => rw [hfi] at hp; cases hp
  | some u =>
    rw [hfi] at hp
    simp only [Bool.and_eq_true, beq_iff_eq, decide_eq_true_eq] at hp
    exact ⟨u, rfl, hp.1, hp.2⟩

/-- **C8.** For every in-bounds grid cell: an Explored cell never
returns to Hidden across a fog recompute; with fog enabled, a Hidden
cell becomes Visible only if some live player-1 unit is within squared
Euclidean distance 16 (= R², R = 4) of it; with fog disabled every cell
is forced Visible. -/
theorem C8_fog :
    ∀ (st : EState) (x y : Int), 0 ≤ x → x < 16 → 0 ≤ y → y < 16 →
      (cellAt st.fogGrid x y = 1 → cellAt (updateFog st).fogGrid x y ≠ 0) ∧
      (st.fogEnabled = true → cellAt st.fogGrid x y = 0 →
        cellAt (updateFog st).fogGrid x y = 2 →
        ∃ i ∈ st.live, ∃ u, heapFind st i = some u ∧ u.owner = 1 ∧
          (x - u.gx) * (x - u.gx) + (y - u.gy) * (y - u.gy) ≤ 16) ∧
      (st.fogEnabled = false → cellAt (updateFog st).fogGrid x y = 2) := by
  intro st x y hx0 hx1 hy0 hy1
  have hxx : ((x.toNat : Int)) = x := Int.toNat_of_nonneg hx0
  have hyy : ((y.toNat : Int)) = y := Int.toNat_of_nonneg hy0
  by_cases hfe : st.fogEnabled = false
  · have hfog : cellAt (updateFog st).fogGrid x y = 2 := by
      unfold updateFog
      rw [if_pos hfe, setFogGrid_fogGrid]
      unfold cellAt
      rw [getD_replicate16 _ _ (by omega : y.toNat < 16),
        getD_replicate16 _ _ (by omega : x.toNat < 16)]
    refine ⟨fun _ => by rw [hfog]; norm_num, fun hen => ?_, fun _ => hfog⟩
    rw [hen] at hfe
    cases hfe
  · have hfog : cellAt (updateFog st).fogGrid x y
        = (if seenByP1 st x y then 2
           else if cellAt st.fogGrid x y = 2 then 1
           else cellAt st.fogGrid x y) := by
      unfold updateFog
      rw [if_neg hfe, setFogGrid_fogGrid, cellAt_build _ hx0 hx1 hy0 hy1,
        hxx, hyy]
    refine ⟨?_, ?_, ?_⟩
    · intro hold
      rw [hfog, hold]
      by_cases hseen : seenByP1 st x y = true <;> simp [hseen]
    · intro _ hold hvis
      rw [hfog, hold] at hvis
      by_cases hseen : seenByP1 st x y = true
      · exact seenByP1_exists hseen
      · rw [if_neg (by simp [hseen]), if_neg (by norm_num)] at hvis
        cases hvis
    · intro hcontra
      rw [hcontra] at hfe
      cases hfe rfl

/-- Witness for C8: with one player-1 unit at (1,1) on an all-hidden
grid, cell (0,0) flips Hidden to Visible, and the theorem produces the
revealing unit. -/
theorem C8_fog_witness :
    ∃ i ∈ fogSt.live, ∃ u, heapFind fogSt i = some u ∧ u.owner = 1 ∧
      ((0 : Int) - u.gx) * ((0 : Int) - u.gx)
        + ((0 : Int) - u.gy) * ((0 : Int) - u.gy) ≤ 16 :=
  (C8_fog fogSt 0 0 (by norm_num) (by norm_num) (by norm_num)
    (by norm_num)).2.1 rfl (by decide) (by decide)

end Blaze
